import Mathlib

/-!
Verification of the progress-visualization engine of `scripts/render_progress_svgs.py`.

The Python program is shallowly embedded: Python values (the fragment the
program manipulates: `None`, `bool`, `int`, `str`, `list`, `dict`) become the
inductive type `PyVal`; dictionaries are association lists in insertion order,
whose keys are `PyKey` (the program only ever uses string and integer keys);
Python `int` is `ℤ`; the float quantities of the layout code are `ℚ` with
Python's banker rounding made explicit.  Code that can raise is embedded in
`Except String` (the message is descriptive, not byte-identical to CPython's).
Drawing commands, built by the source as pipe-joined strings, are embedded as
the tagged type `Cmd`, one constructor per command kind of
`generate_svg_from_lines`.
-/

namespace Farbige

/-- Keys of the Python dictionaries the program manipulates. -/
inductive PyKey where
  | kInt (n : ℤ)
  | kStr (s : String)
deriving DecidableEq, Repr

/-- The fragment of Python values the program manipulates. -/
inductive PyVal where
  | pNone
  | pBool (b : Bool)
  | pInt (n : ℤ)
  | pStr (s : String)
  | pList (xs : List PyVal)
  | pDict (kvs : List (PyKey × PyVal))
deriving Repr

open PyKey PyVal

/-- First-match lookup in an association list, Python dict `get`. -/
def dictGet (kvs : List (PyKey × PyVal)) (k : PyKey) : Option PyVal :=
  match kvs with
  | [] => none
  | (k2, v) :: t => if k = k2 then some v else dictGet t k

/-- Python dict assignment `d[k] = v`: replace in place, else append. -/
def assocSet {β : Type} (l : List (ℤ × β)) (k : ℤ) (v : β) : List (ℤ × β) :=
  match l with
  | [] => [(k, v)]
  | (k2, v2) :: t => if k = k2 then (k, v) :: t else (k2, v2) :: assocSet t k v

/-- Python truthiness of the embedded values. -/
def pyTruthy : PyVal → Bool
  | pNone => false
  | pBool b => b
  | pInt n => n ≠ 0
  | pStr s => s ≠ ""
  | pList xs => ¬ xs.isEmpty
  | pDict kvs => ¬ kvs.isEmpty

/-- `isinstance(v, dict)`. -/
def pyIsDict : PyVal → Bool
  | pDict _ => true
  | _ => false

/-- `isinstance(v, str)`. -/
def pyIsStr : PyVal → Bool
  | pStr _ => true
  | _ => false

/-- A dict key as a value (iterating a dict yields its keys). -/
def keyPy : PyKey → PyVal
  | kInt n => pInt n
  | kStr s => pStr s

/-- Python `str()` / f-string formatting of a key. -/
def pyKeyStr : PyKey → String
  | kInt n => toString n
  | kStr s => s

/-- Python `str()` of a value.  Scalars are exact; the program never
compares the `repr` of a container, so containers are abstracted. -/
def pyStr : PyVal → String
  | pNone => "None"
  | pBool true => "True"
  | pBool false => "False"
  | pInt n => toString n
  | pStr s => s
  | pList _ => "<list>"
  | pDict _ => "<dict>"

/-- Parse a decimal integer literal the way Python `int(str)` accepts the
ones this program meets: an optional sign followed by digits. -/
def parseIntString (s : String) : Option ℤ :=
  let core (ds : List Char) : Option ℕ :=
    if ds.isEmpty then none
    else if ds.all Char.isDigit then
      some (ds.foldl (fun a c => a * 10 + (c.toNat - 48)) 0)
    else none
  match s.data with
  | '-' :: rest => (core rest).map (fun n => -(n : ℤ))
  | '+' :: rest => (core rest).map (fun n => (n : ℤ))
  | ds => (core ds).map (fun n => (n : ℤ))

/-- Python `int(v)` on the embedded fragment: `none` when it raises. -/
def pyInt : PyVal → Option ℤ
  | pInt n => some n
  | pBool true => some 1
  | pBool false => some 0
  | pStr s => parseIntString s
  | _ => none

/-- A value usable where Python needs an actual integer (`range`,
comparison with an int): only `int` and `bool` qualify. -/
def pyIndex : PyVal → Option ℤ
  | pInt n => some n
  | pBool true => some 1
  | pBool false => some 0
  | _ => none

/-- Python `v == 0` (never raises). -/
def pyEqZero : PyVal → Bool
  | pInt n => n = 0
  | pBool b => b = false
  | _ => false

/-- Python iteration `for x in v`: lists yield elements, strings yield
one-character strings, dicts yield keys; other values raise. -/
def pyIter : PyVal → Option (List PyVal)
  | pList xs => some xs
  | pStr s => some (s.data.map (fun c => pStr (String.mk [c])))
  | pDict kvs => some (kvs.map (fun kv => keyPy kv.1))
  | _ => none

/-- `v.get(k, default)` where `v` must be a dict (else `AttributeError`). -/
def pyGetE (v : PyVal) (k : String) (dflt : PyVal) : Except String PyVal :=
  match v with
  | pDict kvs => .ok ((dictGet kvs (kStr k)).getD dflt)
  | _ => .error "AttributeError: get"

/-- `v.get(k, default)` on a value already known to be a dict
(non-dicts give the default; used only where the source has checked). -/
def pyGetD (v : PyVal) (k : String) (dflt : PyVal) : PyVal :=
  match v with
  | pDict kvs => (dictGet kvs (kStr k)).getD dflt
  | _ => dflt

/-- An exact rational as an integer pair (Python's float quantities are
integer-valued or exactly representable small fractions in this program;
they are embedded exactly).  Every `Frac` the embedding builds has a
positive denominator. -/
structure Frac where
  num : ℤ
  den : ℤ
deriving DecidableEq, Repr

/-- An integer as a fraction. -/
def Frac.ofInt (n : ℤ) : Frac := ⟨n, 1⟩

/-- Fraction addition (denominators multiply; no normalization needed for
exactness). -/
def Frac.add (a b : Frac) : Frac :=
  ⟨a.num * b.den + b.num * a.den, a.den * b.den⟩

/-- Fraction subtraction. -/
def Frac.sub (a b : Frac) : Frac :=
  ⟨a.num * b.den - b.num * a.den, a.den * b.den⟩

/-- Fraction multiplication. -/
def Frac.mul (a b : Frac) : Frac := ⟨a.num * b.num, a.den * b.den⟩

/-- Fraction division (signs arranged to keep the denominator positive;
callers guard the zero divisor as the source does). -/
def Frac.div (a b : Frac) : Frac :=
  if 0 ≤ b.num then ⟨a.num * b.den, a.den * b.num⟩
  else ⟨-(a.num * b.den), -(a.den * b.num)⟩

/-- `a <= b` by cross-multiplication (positive denominators). -/
def Frac.le (a b : Frac) : Bool := a.num * b.den ≤ b.num * a.den

/-- `a < b`. -/
def Frac.lt (a b : Frac) : Bool := a.num * b.den < b.num * a.den

/-- Whether the fraction is zero. -/
def Frac.isZero (a : Frac) : Bool := a.num = 0

/-- `math.floor` of a fraction (Euclidean division by the positive
denominator). -/
def Frac.floor (a : Frac) : ℤ := a.num.ediv a.den

/-- Stable insertion into a sorted list (before the first `b` with `le a b`). -/
def insertLe {α : Type} (le : α → α → Bool) (a : α) : List α → List α
  | [] => [a]
  | b :: l => if le a b then a :: b :: l else b :: insertLe le a l

/-- Stable insertion sort: agrees with Python `sorted` (Timsort is stable,
and a stable sort's output is unique). -/
def sortLe {α : Type} (le : α → α → Bool) : List α → List α
  | [] => []
  | a :: l => insertLe le a (sortLe le l)

/-- Lexicographic comparison of character lists by code point: exactly
Python's string order. -/
def charListLe : List Char → List Char → Bool
  | [], _ => true
  | _ :: _, [] => false
  | a :: as, b :: bs =>
      if a.toNat < b.toNat then true
      else if a.toNat = b.toNat then charListLe as bs
      else false

/-- Python `s <= t` on strings (code-point lexicographic). -/
def pyStrLe (s t : String) : Bool := charListLe s.data t.data

/-- Python `sorted` over dict keys: all-string or all-integer keys sort by
their own order; a mixed list raises `TypeError`. -/
def pySortedKeys (ks : List PyKey) : Option (List PyKey) :=
  if ks.all (fun k => match k with | kStr _ => true | _ => false) then
    some (sortLe (fun a b =>
      match a, b with
      | kStr s, kStr t => pyStrLe s t
      | _, _ => true) ks)
  else if ks.all (fun k => match k with | kInt _ => true | _ => false) then
    some (sortLe (fun a b =>
      match a, b with
      | kInt m, kInt n => m ≤ n
      | _, _ => true) ks)
  else none

/-- Python `round()` on an exact rational: round half to even
(compare twice the remainder after the floor with the denominator). -/
def pyRound (q : Frac) : ℤ :=
  let f : ℤ := q.floor
  let r2 : ℤ := 2 * (q.num - q.den * f)
  if r2 < q.den then f
  else if q.den < r2 then f + 1
  else if f % 2 = 0 then f else f + 1

/-- Python `{:.1f}` formatting of an exact rational. -/
def fmtQ1 (q : Frac) : String :=
  let n : ℤ := pyRound (q.mul (Frac.ofInt 10))
  let m : ℕ := n.natAbs
  (if n < 0 then "-" else "") ++ toString (m / 10) ++ "." ++ toString (m % 10)

/-- One hexadecimal digit. -/
def hexDigit (c : Char) : Option ℤ :=
  if '0' ≤ c ∧ c ≤ '9' then some ((c.toNat : ℤ) - 48)
  else if 'a' ≤ c ∧ c ≤ 'f' then some ((c.toNat : ℤ) - 87)
  else if 'A' ≤ c ∧ c ≤ 'F' then some ((c.toNat : ℤ) - 55)
  else none

/-- `int(s, 16)` of a two-character slice. -/
def hexPair (a b : Char) : Option ℤ := do
  let x ← hexDigit a
  let y ← hexDigit b
  pure (x * 16 + y)

/-- `hex_to_rgb`: strip `#`, read three two-digit hex components;
`none` when Python would raise `ValueError`. -/
def hex_to_rgb (hexColor : String) : Option (ℤ × ℤ × ℤ) :=
  match (if hexColor.startsWith "#" then hexColor.drop 1 else hexColor).data with
  | [r1, r2, g1, g2, b1, b2] => do
      let r ← hexPair r1 r2
      let g ← hexPair g1 g2
      let b ← hexPair b1 b2
      pure (r, g, b)
  | _ => none

/-- `"{:02X}"`: two-digit zero-padded uppercase hex of a channel. -/
def hex2 (n : ℤ) : String :=
  let dig (m : ℕ) : String :=
    String.mk [(if m < 10 then Char.ofNat (48 + m) else Char.ofNat (55 + m))]
  let m := n.natAbs
  (if n < 0 then "-" else "") ++
    (if m < 16 then "0" ++ dig m else dig (m / 16 % 16) ++ dig (m % 16))

/-- `rgb_to_hex`. -/
def rgb_to_hex (rgb : ℤ × ℤ × ℤ) : String :=
  "#" ++ hex2 rgb.1 ++ hex2 rgb.2.1 ++ hex2 rgb.2.2

/-- One linearly interpolated channel, `round(v1 + (v2 - v1) * t)`. -/
def interpChannel (v1 v2 : ℤ) (t : Frac) : ℤ :=
  pyRound ((Frac.ofInt v1).add ((Frac.ofInt (v2 - v1)).mul t))

/-- The `for (p1, c1), (p2, c2) in zip(colors, colors[1:])` search loop of
`interpolate_color`.  Falling off the loop returns Python `None`. -/
def interpSegments (value : Frac) : List (Frac × String) → Except String (Option String)
  | (p1, c1) :: (p2, c2) :: rest =>
      if Frac.le p1 value ∧ Frac.le value p2 then
        if (p2.sub p1).isZero then .error "ZeroDivisionError"
        else
          match hex_to_rgb c1, hex_to_rgb c2 with
          | some (r1, g1, b1), some (r2, g2, b2) =>
              let t := (value.sub p1).div (p2.sub p1)
              .ok (some (rgb_to_hex
                (interpChannel r1 r2 t, interpChannel g1 g2 t,
                 interpChannel b1 b2 t)))
          | _, _ => .error "ValueError: invalid hex color"
      else interpSegments value ((p2, c2) :: rest)
  | _ => .ok none

/-- `interpolate_color(colors, value)`: sort the stops, clamp to the
endpoints, else interpolate linearly per RGB channel. -/
def interpolate_color (colors : List (Frac × String)) (value : Frac) :
    Except String (Option String) :=
  if ¬ (Frac.le (Frac.ofInt 0) value ∧ Frac.le value (Frac.ofInt 1)) then
    .error "Value must be between 0 and 1"
  else
    let sorted := sortLe (fun a b => Frac.le a.1 b.1) colors
    match sorted with
    | [] => .error "IndexError: list index out of range"
    | c0 :: rest =>
        if Frac.le value c0.1 then .ok (some c0.2)
        else
          let last := (c0 :: rest).getLast (by simp)
          if Frac.le last.1 value then .ok (some last.2)
          else interpSegments value (c0 :: rest)

/-- A drawing command: the tagged form of the pipe-joined command strings
built by the source, one constructor per command kind that
`generate_svg_from_lines` interprets. -/
inductive Cmd where
  | style (css : String)
  | text (x y : Frac) (cls content : String)
  | rect (x y w h rx ry : Frac) (cls : String)
  | groupOpen (gid transform : String)
  | groupClose
  | raw (s : String)
deriving DecidableEq, Repr

/-- Whether a command is a `RECT` command. -/
def Cmd.isRect : Cmd → Bool
  | Cmd.rect _ _ _ _ _ _ _ => true
  | _ => false

/-- `"{:03d}"` zero-padding of a (positive) cell number. -/
def pad3 (n : ℕ) : String :=
  let s := toString n
  (String.mk (List.replicate (3 - s.length) '0')) ++ s

/-- The deterministic placeholder identifier `f"{group_id}-{i+1:03d}"` of the
`i`-th synthesized cell (0-based `i`). -/
def placeholderId (gid : String) (i : ℕ) : String := gid ++ "-" ++ pad3 (i + 1)

/-- The unit state drawn by a grid cell:
`int(units_map.get(uid, 0))` under `try`/`except` falling back to `0`. -/
def grid_state_val (unitsMap : List (PyKey × PyVal)) (uid : PyKey) : ℤ :=
  (pyInt ((dictGet unitsMap uid).getD (pInt 0))).getD 0

/-- The commands one grid cell emits: its `RECT`, plus the debugging `TEXT`
label when `show_unit_ids` is set (loop body of `generate_grid_commands`). -/
def grid_cell_cmds (unitsMap : List (PyKey × PyVal)) (ids : List PyKey)
    (x0 y0 : Frac) (cellSize gap rx ry : ℤ) (showUnitIds : Bool)
    (r c : ℤ) (idx : ℕ) : List Cmd :=
  let uid := ids.getD idx (kStr "")
  let stateVal := grid_state_val unitsMap uid
  let cellX : Frac := x0.add (Frac.ofInt (c * (cellSize + gap)))
  let cellY : Frac := y0.add (Frac.ofInt (r * (cellSize + gap)))
  let rectCmd := Cmd.rect cellX cellY (Frac.ofInt cellSize) (Frac.ofInt cellSize)
      (Frac.ofInt rx) (Frac.ofInt ry) ("square state-" ++ toString stateVal)
  if showUnitIds then
    [rectCmd,
     Cmd.text (cellX.add ((Frac.ofInt cellSize).div (Frac.ofInt 2)))
       ((cellY.add (Frac.ofInt cellSize)).add (Frac.ofInt 10))
       "body" (pyKeyStr uid)]
  else [rectCmd]

/-- The inner `for c in range(cols)` loop: the remaining iteration count is
`k` (so the current column is `cols - k`), `idx` is the running cell index;
`if idx >= n_cells: break` stops the row.  Returns the emitted commands and
the index after the row. -/
def grid_row_cells (emit : ℤ → ℤ → ℕ → List Cmd) (nCells cols : ℤ) (r : ℤ) :
    ℕ → ℕ → List Cmd × ℕ
  | 0, idx => ([], idx)
  | k + 1, idx =>
      if nCells ≤ (idx : ℤ) then ([], idx)
      else
        let c : ℤ := cols - ((k : ℤ) + 1)
        let rest := grid_row_cells emit nCells cols r k (idx + 1)
        (emit r c idx ++ rest.1, rest.2)

/-- The outer `for r in range(rows)` loop: `rs` rows remain, the current row
index is `r`. -/
def grid_rows (emit : ℤ → ℤ → ℕ → List Cmd) (nCells cols : ℤ) :
    ℕ → ℤ → ℕ → List Cmd
  | 0, _, _ => []
  | rs + 1, r, idx =>
      let rowRes := grid_row_cells emit nCells cols r cols.toNat idx
      rowRes.1 ++ grid_rows emit nCells cols rs (r + 1) rowRes.2

/-- Lines 230-241 of the source: resolve the unit mapping and the cell
count.  A non-empty unit mapping fixes `n_cells` and the (sorted, or
caller-ordered) unit ids; otherwise the declared `total` is used and
placeholder ids are generated.  Returns `(n_cells, unit_ids, units_map)`. -/
def grid_unit_ids (group : PyVal) (unitOrder : Option (List PyKey)) :
    Except String (ℤ × List PyKey × List (PyKey × PyVal)) :=
  match group with
  | pDict g =>
      let unitsRaw := (dictGet g (kStr "units")).getD (pDict [])
      let unitsMap := if pyTruthy unitsRaw then unitsRaw else pDict []
      let groupId := (dictGet g (kStr "id")).getD (pStr "group")
      if pyTruthy unitsMap then
        match unitsMap with
        | pDict ukvs =>
            let useOrder : Bool := match unitOrder with
              | some ord => !ord.isEmpty
              | none => false
            if useOrder then
              let ids := unitOrder.getD []
              .ok ((ids.length : ℤ), ids, ukvs)
            else
              match pySortedKeys (ukvs.map Prod.fst) with
              | some ids => .ok ((ids.length : ℤ), ids, ukvs)
              | none => .error "TypeError: unorderable key types"
        | _ => .error "AttributeError: keys"
      else
        let tv0 := (dictGet g (kStr "total")).getD (pInt 0)
        let tv := if pyTruthy tv0 then tv0 else pInt 0
        match pyIndex tv with
        | some t =>
            .ok (t, (List.range t.toNat).map
              (fun i => kStr (placeholderId (pyStr groupId) i)), [])
        | none => .error "TypeError: range() argument must be an integer"
  | _ => .error "AttributeError: get"

/-- `generate_grid_commands`: one `GROUP_OPEN`, a row-major grid of `RECT`
cells (optionally labelled), one `GROUP_CLOSE`; also the consumed height. -/
def generate_grid_commands (group : PyVal) (originX originY : Frac)
    (cols : ℤ) (cellSize gap rx ry : ℤ)
    (showUnitIds : Bool) (unitOrder : Option (List PyKey)) :
    Except String (List Cmd × ℤ) :=
  match grid_unit_ids group unitOrder with
  | .error e => .error e
  | .ok (nCells, unitIds, unitsMap) =>
      if nCells = 0 then .ok ([], 0)
      else
        let cols2 : ℤ := max 1 (min cols nCells)
        let rows : ℤ := (nCells + cols2 - 1) / cols2
        let emit := grid_cell_cmds unitsMap unitIds originX originY
          cellSize gap rx ry showUnitIds
        let body := grid_rows emit nCells cols2 rows.toNat 0 0
        let cmds := Cmd.groupOpen "grid" "" :: (body ++ [Cmd.groupClose])
        .ok (cmds, rows * cellSize + (rows - 1) * gap)

/-- Sequential effectful map over `Except`, the semantics of a Python
`for` loop that may raise: stop at the first error. -/
def exceptMapM {ε α β : Type} (f : α → Except ε β) : List α → Except ε (List β)
  | [] => .ok []
  | a :: t => do
      let b ← f a
      let r ← exceptMapM f t
      pure (b :: r)

/-- `collect_units` of `compute_state_counters`: recursively gather
`int(val)` of every unit of a node and its subgroups; the unguarded `int()`
raises on a value it cannot coerce.  `fuel` bounds the recursion depth
(Python's own recursion limit plays this part). -/
def collect_units (fuel : ℕ) (node : PyVal) : Except String (List ℤ) :=
  match fuel with
  | 0 => .error "RecursionError"
  | fuel + 1 =>
      if ¬ pyTruthy node then .ok []
      else
        match node with
        | pDict kvs => do
            let fromUnits ←
              match dictGet kvs (kStr "units") with
              | some (pDict ukvs) =>
                  exceptMapM (fun kv =>
                    match pyInt kv.2 with
                    | some n => Except.ok n
                    | none => Except.error "ValueError: int() cannot coerce unit state") ukvs
              | some _ => Except.error "AttributeError: items"
              | none => Except.ok []
            match pyIter ((dictGet kvs (kStr "subgroups")).getD (pList [])) with
            | some subs => do
                let rest ← exceptMapM (collect_units fuel) subs
                pure (fromUnits ++ rest.flatten)
            | none => Except.error "TypeError: subgroups not iterable"
        | _ => .ok []

/-- The `counters` dict built by `compute_state_counters`: for every sorted
state key except `0`, the pair (count of unit states `>= s`, total). -/
def build_counters (stateKeys : List ℤ) (unitStates : List ℤ) :
    List (ℤ × ℕ × ℕ) :=
  stateKeys.foldl
    (fun acc s =>
      if s = 0 then acc
      else assocSet acc s
        (unitStates.countP (fun v => decide (s ≤ v)), unitStates.length))
    []

/-- `int(k)` over the keys of the `states` dict (raises on a
non-integer-convertible key). -/
def stateKeyInts (ks : List PyKey) : Except String (List ℤ) :=
  exceptMapM (fun k =>
    match k with
    | kInt n => Except.ok n
    | kStr s =>
        match parseIntString s with
        | some n => Except.ok n
        | none => Except.error "ValueError: invalid state key") ks

/-- `compute_state_counters(section)`: `(counters, total_units)` where the
unit states are collected from `section["groups"]` only. -/
def compute_state_counters (fuel : ℕ) (sec : PyVal) :
    Except String (List (ℤ × ℕ × ℕ) × ℕ) := do
  let states ← pyGetE sec "states" (pDict [])
  let groupsVal ← pyGetE sec "groups" (pList [])
  let grps ←
    match pyIter groupsVal with
    | some l => Except.ok l
    | none => Except.error "TypeError: groups not iterable"
  let lists ← exceptMapM (collect_units fuel) grps
  let unitStates := lists.flatten
  let stateKvs ←
    match states with
    | pDict kvs => Except.ok kvs
    | _ => Except.error "AttributeError: keys"
  let rawKeys ← stateKeyInts (stateKvs.map Prod.fst)
  let stateKeys := sortLe (fun a b => a ≤ b) rawKeys
  pure (build_counters stateKeys unitStates, unitStates.length)

/-- `f"Section '{section_key}'..."` message prefix. -/
def secMsg (sk : PyKey) (rest : String) : String :=
  "Section '" ++ pyKeyStr sk ++ "'" ++ rest

/-- `f"Section '{section_key}', group '{gid}'..."` message prefix. -/
def sgMsg (sk : PyKey) (gid : PyVal) (rest : String) : String :=
  "Section '" ++ pyKeyStr sk ++ "', group '" ++ pyStr gid ++ "'" ++ rest

/-- `f"Section '{section_key}', group '{gid}', subgroup '{sid}'..."`. -/
def sgSubMsg (sk : PyKey) (gid sid : PyVal) (rest : String) : String :=
  "Section '" ++ pyKeyStr sk ++ "', group '" ++ pyStr gid ++ "', subgroup '"
    ++ pyStr sid ++ "'" ++ rest

/-- Lines 525-534: validate the section's `unit` mapping.  Returns the
possibly repaired value and recorded errors. -/
def normalize_unit (sk : PyKey) (unit0 : PyVal) : PyVal × List String :=
  let valid : Bool := match unit0 with
    | pDict kvs => (dictGet kvs (kStr "name")).isSome
    | _ => false
  if valid then (unit0, [])
  else
    match unit0 with
    | pNone =>
        (pDict [(kStr "name", pStr ""), (kStr "plural", pStr "")],
         [secMsg sk ": missing 'unit' mapping; using empty placeholders."])
    | u =>
        (pDict [(kStr "name", pyGetD u "name" (pStr "")),
                (kStr "plural", pyGetD u "plural" (pStr ""))],
         [secMsg sk ": 'unit' must be a mapping with at least 'name'. Normalising."])

/-- Loop body of the `states` normalization (lines 540-550). -/
def normalize_states_step (sk : PyKey) (acc : List (ℤ × String) × List String)
    (kv : PyKey × PyVal) : List (ℤ × String) × List String :=
  let keyInt : Option ℤ := match kv.1 with
    | kInt n => some n
    | kStr s => parseIntString s
  match keyInt with
  | none =>
      (acc.1, acc.2 ++
        [secMsg sk (": state key '" ++ pyKeyStr kv.1 ++ "' is not an integer; skipping.")])
  | some ki =>
      match kv.2 with
      | pStr s => (assocSet acc.1 ki s, acc.2)
      | v =>
          (assocSet acc.1 ki (pyStr v), acc.2 ++
            [secMsg sk (": state value for '" ++ pyKeyStr kv.1 ++ "' should be a string; casting.")])

/-- Lines 537-553: normalize the `states` mapping to integer keys and
string labels. -/
def normalize_states (sk : PyKey) (states : PyVal) :
    List (ℤ × String) × List String :=
  match states with
  | pDict kvs => kvs.foldl (normalize_states_step sk) ([], [])
  | _ => ([], [secMsg sk ": 'states' must be a mapping; defaulting to empty."])

/-- Lines 556-561: validate `final_state`. -/
def normalize_final (sk : PyKey) (fs0 : PyVal) : Option ℤ × List String :=
  match fs0 with
  | pNone => (none, [])
  | v =>
      match pyInt v with
      | some n => (some n, [])
      | none => (none, [secMsg sk ": 'final_state' must be an integer. Setting to None."])

/-- Lines 602-636: normalize one subgroup of a container group. -/
def normalize_subgroup (sk : PyKey) (gid : PyVal) (si : ℕ) (sg : PyVal) :
    Option PyVal × List String × List String :=
  match sg with
  | pDict skvs =>
      let sid := (dictGet skvs (kStr "id")).getD pNone
      let slabel := (dictGet skvs (kStr "label")).getD (pStr "")
      let total0 := (dictGet skvs (kStr "total")).getD pNone
      let units0 := (dictGet skvs (kStr "units")).getD (pDict [])
      match sid with
      | pNone =>
          (none,
           [sgMsg sk gid (": subgroup at index " ++ toString si ++ " missing 'id'; skipping.")],
           [])
      | sid =>
          let te : ℤ × List String × List String :=
            match total0 with
            | pNone => (0, [], [sgSubMsg sk gid sid ": missing 'total'. Setting to 0."])
            | v =>
                match pyInt v with
                | some n => (n, [], [])
                | none => (0, [sgSubMsg sk gid sid ": 'total' not an integer; setting to 0."], [])
          let ue : List (PyKey × PyVal) × List String :=
            match units0 with
            | pDict u => (u, [])
            | _ => ([], [sgSubMsg sk gid sid ": 'units' must be a mapping; using empty dict."])
          (some (pDict [(kStr "id", sid), (kStr "label", slabel),
                        (kStr "total", pInt te.1), (kStr "units", pDict ue.1)]),
           te.2.1 ++ ue.2, te.2.2)
  | _ =>
      (none,
       [sgMsg sk gid (": subgroup at index " ++ toString si ++ " invalid; skipping.")],
       [])

/-- Lines 580-670: normalize one group (container with `subgroups`, or a
leaf carrying `total` and `units` directly). -/
def normalize_group (sk : PyKey) (gi : ℕ) (group : PyVal) :
    Option PyVal × List String × List String :=
  match group with
  | pDict gkvs =>
      let gid := (dictGet gkvs (kStr "id")).getD pNone
      let glabel := (dictGet gkvs (kStr "label")).getD (pStr "")
      let gsubs := (dictGet gkvs (kStr "subgroups")).getD pNone
      let gtotal := (dictGet gkvs (kStr "total")).getD pNone
      let gunits := (dictGet gkvs (kStr "units")).getD pNone
      match gid with
      | pNone =>
          (none,
           [secMsg sk (": group at index " ++ toString gi ++ " missing 'id'; skipping.")],
           [])
      | gid =>
          match gsubs with
          | pNone =>
              let te : ℤ × List String × List String :=
                match gtotal with
                | pNone => (0, [], [sgMsg sk gid ": missing 'total'. Setting to 0."])
                | v =>
                    match pyInt v with
                    | some n => (n, [], [])
                    | none => (0, [sgMsg sk gid ": 'total' not an integer; setting to 0."], [])
              let ue : List (PyKey × PyVal) × List String :=
                match gunits with
                | pNone => ([], [])
                | pDict u => (u, [])
                | _ => ([], [sgMsg sk gid ": 'units' must be a mapping; using empty dict."])
              (some (pDict [(kStr "id", gid), (kStr "label", glabel),
                            (kStr "total", pInt te.1), (kStr "units", pDict ue.1)]),
               te.2.1 ++ ue.2, te.2.2)
          | subsV =>
              let se : List PyVal × List String :=
                match subsV with
                | pList l => (l, [])
                | _ => ([], [sgMsg sk gid ": 'subgroups' must be a list."])
              let res := se.1.foldl
                (fun (acc : List PyVal × List String × List String × ℕ) sg =>
                  let r := normalize_subgroup sk gid acc.2.2.2 sg
                  (acc.1 ++ (r.1.elim [] (fun x => [x])),
                   acc.2.1 ++ r.2.1, acc.2.2.1 ++ r.2.2, acc.2.2.2 + 1))
                ([], se.2, [], 0)
              (some (pDict [(kStr "id", gid), (kStr "label", glabel),
                            (kStr "subgroups", pList res.1)]),
               res.2.1, res.2.2.1)
  | _ =>
      (none,
       [secMsg sk (": group at index " ++ toString gi ++ " must be a mapping; skipping.")],
       [])

/-- Lines 571-670: validate the `groups` value (when it is not `None`) and
normalize every group. -/
def normalize_groups (sk : PyKey) (groupsV : PyVal) :
    List PyVal × List String × List String :=
  let base : List PyVal × List String × List String :=
    match groupsV with
    | pList l => (l, [], if l.isEmpty then [secMsg sk ": 'groups' is empty."] else [])
    | _ => ([], [secMsg sk ": 'groups' must be a list."], [secMsg sk ": 'groups' is empty."])
  let res := base.1.foldl
    (fun (acc : List PyVal × List String × List String × ℕ) g =>
      let r := normalize_group sk acc.2.2.2 g
      (acc.1 ++ (r.1.elim [] (fun x => [x])),
       acc.2.1 ++ r.2.1, acc.2.2.1 ++ r.2.2, acc.2.2.2 + 1))
    ([], base.2.1, base.2.2, 0)
  (res.1, res.2.1, res.2.2.1)

/-- The subgroup-accumulation step of `normalize_group`, named. -/
def sub_fold_step (sk : PyKey) (gid : PyVal) :
    (List PyVal × List String × List String × ℕ) → PyVal →
    (List PyVal × List String × List String × ℕ) :=
  fun acc sg =>
    let r := normalize_subgroup sk gid acc.2.2.2 sg
    (acc.1 ++ (r.1.elim [] (fun x => [x])),
     acc.2.1 ++ r.2.1, acc.2.2.1 ++ r.2.2, acc.2.2.2 + 1)

/-- The group-accumulation step of `normalize_groups`, named. -/
def group_fold_step (sk : PyKey) :
    (List PyVal × List String × List String × ℕ) → PyVal →
    (List PyVal × List String × List String × ℕ) :=
  fun acc g =>
    let r := normalize_group sk acc.2.2.2 g
    (acc.1 ++ (r.1.elim [] (fun x => [x])),
     acc.2.1 ++ r.2.1, acc.2.2.1 ++ r.2.2, acc.2.2.2 + 1)

/-- Body of the per-section loop of `interpret_sections` (lines 512-688):
`(canonical section or skip, recorded errors, recorded warnings)`. -/
def interpret_one_section (sk : PyKey) (sec : PyVal) :
    Option PyVal × List String × List String :=
  match sec with
  | pDict skvs =>
      let title := (dictGet skvs (kStr "title")).getD (pStr "")
      let unit0 := (dictGet skvs (kStr "unit")).getD pNone
      let states0 := (dictGet skvs (kStr "states")).getD (pDict [])
      let final0 := (dictGet skvs (kStr "final_state")).getD pNone
      let groups0 := (dictGet skvs (kStr "groups")).getD pNone
      let sunits0 := (dictGet skvs (kStr "units")).getD pNone
      let uRes := normalize_unit sk unit0
      let sRes := normalize_states sk states0
      let fRes := normalize_final sk final0
      let gRes : List PyVal × PyVal × List String × List String :=
        match groups0 with
        | pNone =>
            match sunits0 with
            | pNone => ([], pNone, [], [])
            | pDict u => ([], pDict u, [], [])
            | _ => ([], pDict [],
                    [secMsg sk ": top-level 'units' must be a mapping; using empty dict."], [])
        | gv =>
            let r := normalize_groups sk gv
            (r.1, sunits0, r.2.1, r.2.2)
      let entryBase : List (PyKey × PyVal) :=
        [(kStr "id", keyPy sk), (kStr "title", title),
         (kStr "unit", pDict [(kStr "name", pyGetD uRes.1 "name" (pStr "")),
                              (kStr "plural", pyGetD uRes.1 "plural" (pStr ""))]),
         (kStr "states", pDict (sRes.1.map (fun p => (kInt p.1, pStr p.2)))),
         (kStr "final_state", fRes.1.elim pNone pInt),
         (kStr "groups", pList gRes.1)]
      let eRes : PyVal × List String :=
        match gRes.2.1 with
        | pNone => (pDict entryBase, [])
        | pDict u =>
            (pDict (entryBase ++ [(kStr "units", pDict u)]),
             if u.isEmpty then [secMsg sk ": top-level 'units' is empty."] else [])
        | _ =>
            (pDict (entryBase ++ [(kStr "units", pDict [])]),
             [secMsg sk ": top-level 'units' is empty."])
      (some eRes.1,
       uRes.2 ++ sRes.2 ++ fRes.2 ++ gRes.2.2.1,
       gRes.2.2.2 ++ eRes.2)
  | _ => (none, [secMsg sk " must be an object/dictionary."], [])

/-- `interpret_sections(progress)`: fatal checks on the root, then the
per-section loop; `(sections or None, errors, warnings)`. -/
def interpret_sections (progress : PyVal) :
    Option (List PyVal) × List String × List String :=
  match progress with
  | pDict pkvs =>
      match (dictGet pkvs (kStr "sections")).getD pNone with
      | pNone => (none, ["Missing top-level 'sections' key in progress.yaml."], [])
      | pDict skvs =>
          let res := skvs.foldl
            (fun (acc : List PyVal × List String × List String) kv =>
              let r := interpret_one_section kv.1 kv.2
              (acc.1 ++ (r.1.elim [] (fun x => [x])),
               acc.2.1 ++ r.2.1, acc.2.2 ++ r.2.2))
            ([], [], [])
          (some res.1, res.2.1, res.2.2)
      | _ => (none, ["'sections' must be a mapping/dictionary."], [])
  | _ => (none, ["Top-level progress structure must be a mapping/dictionary."], [])

/-- The per-section accumulation step of `interpret_sections`, named. -/
def sec_fold_step :
    (List PyVal × List String × List String) → (PyKey × PyVal) →
    (List PyVal × List String × List String) :=
  fun acc kv =>
    let r := interpret_one_section kv.1 kv.2
    (acc.1 ++ (r.1.elim [] (fun x => [x])),
     acc.2.1 ++ r.2.1, acc.2.2 ++ r.2.2)

/-- `len(v)` (raises on unsized values). -/
def pyLen : PyVal → Except String ℤ
  | pDict kvs => .ok kvs.length
  | pList l => .ok l.length
  | pStr s => .ok s.length
  | _ => .error "TypeError: len"

/-- `"/".join(path)` (raises when an element is not a string). -/
def pyJoinSlash (l : List PyVal) : Except String String :=
  match l.mapM (fun v => match v with | pStr s => some s | _ => none) with
  | some ss => .ok (String.intercalate "/" ss)
  | none => .error "TypeError: join expects str"

/-- The Github-contribution-graph gradient of `render_section_svg`. -/
def GRADIENT : List (Frac × String) :=
  [(⟨0, 1⟩, "#161c23"), (⟨1, 4⟩, "#0e4527"), (⟨1, 2⟩, "#006e34"),
   (⟨3, 4⟩, "#28a541"), (⟨1, 1⟩, "#39d255")]

/-- `AVG_CHAR_WIDTH` of `render_section_svg` (`.get(cls, 8)`). -/
def avg_char_width (cls : String) : ℤ :=
  if cls = "title" then 11 else if cls = "path" then 9
  else if cls = "legend" then 9 else if cls = "body" then 9 else 8

/-- `estimate_text_width`: crude estimation, characters times average
width; `None` is treated gracefully.  (Defined by the source together with
`update_max_for_text` and `update_max_for_rect`, none of which is ever
called: `max_x` stays at its initial value.) -/
def estimate_text_width (text : Option String) (cls : String) : ℤ :=
  match text with
  | none => 0
  | some t => (t.length : ℤ) * avg_char_width cls

/-- First-match lookup in the counters list (`counters.get(s, default)`). -/
def lookupCounter : List (ℤ × ℕ × ℕ) → ℤ → Option (ℕ × ℕ)
  | [], _ => none
  | (s, c, t) :: r, k => if k = s then some (c, t) else lookupCounter r k

/-- `render_grid_section` of `render_section_svg`: draw the group's grid
and advance the cursor by the grid height plus `GRID_POST_SPACING`. -/
def render_grid_section (x gridCols gridCellSize gridGap gridRx gridRy : ℤ)
    (group : PyVal) (y : ℤ) : Except String (List Cmd × ℤ) :=
  match generate_grid_commands group (Frac.ofInt x) (Frac.ofInt y) gridCols gridCellSize
      gridGap gridRx gridRy false none with
  | .error e => .error e
  | .ok (gc, gh) => .ok (gc, y + gh + 16)

/-- `render_group` of `render_section_svg`: path header and grid for a leaf
(`total == 0` renders the uncatalogued placeholder and returns early),
then recursion into `subgroups`.  Returns `(commands, new y, warnings)`. -/
def render_group (fuel : ℕ) (x pathGap gridCols gridCellSize gridGap gridRx gridRy : ℤ)
    (group : PyVal) (path : List PyVal) (y : ℤ) :
    Except String (List Cmd × ℤ × List String) :=
  match fuel with
  | 0 => .error "RecursionError"
  | fuel + 1 => do
      let gidDefault ← pyGetE group "id" (pStr "")
      let lbl ← pyGetE group "label" gidDefault
      let currentPath := path ++ [lbl]
      let unitsOpt : Option PyVal := match group with
        | pDict g => dictGet g (kStr "units")
        | _ => none
      let isLeaf : Bool := match unitsOpt with
        | some pNone => false
        | some _ => true
        | none => false
      let leafRes : List Cmd × ℤ × List String × Bool ←
        if isLeaf then do
          let header ← pyJoinSlash currentPath
          let c1 := [Cmd.text (Frac.ofInt x) (Frac.ofInt (y + 14)) "path" header]
          let y1 := y + pathGap
          if pyEqZero (pyGetD group "total" (pInt 0)) then
            pure (c1 ++ [Cmd.text (Frac.ofInt x) (Frac.ofInt (y1 + 14)) "body"
                    "Units have not yet been catalogued for tracking progress."],
                  y1 + 30,
                  ["Group '" ++ header ++ "' has total=0; considered uncatalogued."],
                  true)
          else do
            let g ← render_grid_section x gridCols gridCellSize gridGap gridRx gridRy group y1
            pure (c1 ++ g.1, g.2, [], false)
        else pure ([], y, [], false)
      if leafRes.2.2.2 then
        pure (leafRes.1, leafRes.2.1, leafRes.2.2.1)
      else do
        let subsV ← pyGetE group "subgroups" (pList [])
        let subs ←
          match pyIter subsV with
          | some l => pure l
          | none => Except.error "TypeError: subgroups not iterable"
        subs.foldlM
          (fun (acc : List Cmd × ℤ × List String) sg => do
            let r ← render_group fuel x pathGap gridCols gridCellSize gridGap
              gridRx gridRy sg currentPath acc.2.1
            pure (acc.1 ++ r.1, r.2.1, acc.2.2 ++ r.2.2))
          (leafRes.1, leafRes.2.1, leafRes.2.2.1)

/-- `render_section_svg`: stylesheet, optional title, group walk (or the
flat-units synthetic group), legend, background rectangle.  Returns
`(commands, final height, tracked max_x, warnings)`; `max_x` is
initialised to the left margin and — the update helpers being defined but
never invoked — never changes. -/
def render_section_svg (sec : PyVal) (fuel : ℕ)
    (canvasWidth margin : ℤ) (showTitle : Bool) (titleGap pathGap : ℤ)
    (gridCols gridCellSize gridGap gridRx gridRy : ℤ)
    (legendSquareSize legendSpacing legendPaddingBottom : ℤ) :
    Except String (List Cmd × ℤ × Frac × List String) := do
  let states ← pyGetE sec "states" (pDict [])
  let skvs ←
    match sec with
    | pDict kvs => pure kvs
    | _ => Except.error "AttributeError: get"
  let statesKvs ←
    match states with
    | pDict kvs => pure kvs
    | _ => Except.error "AttributeError: keys"
  let rawKeys ← stateKeyInts (statesKvs.map Prod.fst)
  let stateKeys := sortLe (fun a b => a ≤ b) rawKeys
  let x := margin
  let maxX : Frac := Frac.ofInt x
  let baseCss : List String :=
    [".bg \x7b fill: #0d1116; rx: 10px; ry: 10px; \x7d",
     ".title \x7b font: bold 20px sans-serif; fill: #fff; \x7d",
     ".path \x7b font: 16px sans-serif; fill: #fff; \x7d",
     ".legend \x7b font: 16px sans-serif; fill: #fff; \x7d",
     ".body \x7b font: 16px sans-serif; fill: #fff; \x7d",
     ".square \x7b rx: 2px; fill: none; \x7d"]
  let stateCss ← stateKeys.enum.mapM (fun p => do
      let percent : Frac :=
        if stateKeys.length > 1 then
          (Frac.ofInt (p.1 : ℤ)).div (Frac.ofInt ((stateKeys.length : ℤ) - 1))
        else ⟨1, 2⟩
      match interpolate_color GRADIENT percent with
      | .error e => Except.error e
      | .ok o =>
          pure (".square.state-" ++ toString p.2 ++ " \x7b fill: "
            ++ (o.getD "None") ++ "; \x7d"))
  let cmds1 := [Cmd.style (String.intercalate "\n" (baseCss ++ stateCss))]
  let tRes : List Cmd × ℤ :=
    if showTitle then
      ([Cmd.text (Frac.ofInt x) (Frac.ofInt (margin + 14)) "title"
          (pyStr ((dictGet skvs (kStr "title")).getD (pStr "Section")))],
       margin + titleGap)
    else ([], margin)
  let groupsTruthy := pyTruthy ((dictGet skvs (kStr "groups")).getD pNone)
  let bodyRes : List Cmd × ℤ × List String ←
    if groupsTruthy then do
      let gl ←
        match pyIter ((dictGet skvs (kStr "groups")).getD (pList [])) with
        | some l => pure l
        | none => Except.error "TypeError: groups not iterable"
      gl.foldlM
        (fun (acc : List Cmd × ℤ × List String) grp => do
          let r ← render_group fuel x pathGap gridCols gridCellSize gridGap
            gridRx gridRy grp [] acc.2.1
          pure (acc.1 ++ r.1, r.2.1, acc.2.2 ++ r.2.2))
        (([] : List Cmd), tRes.2, ([] : List String))
    else do
      let unitsMap := (dictGet skvs (kStr "units")).getD (pDict [])
      let ln ← pyLen unitsMap
      if ln = 0 then
        pure ([Cmd.text (Frac.ofInt x) (Frac.ofInt (tRes.2 + 14)) "body"
                "Units have not yet been catalogued for tracking progress."],
              tRes.2 + 30,
              ["Section '" ++ pyStr ((dictGet skvs (kStr "title")).getD (pStr ""))
                ++ "' has no units; considered uncatalogued."])
      else do
        let synth := pDict [(kStr "id", pStr "all"), (kStr "label", pStr "All"),
                            (kStr "units", unitsMap)]
        let g ← render_grid_section x gridCols gridCellSize gridGap gridRx gridRy
          synth tRes.2
        pure (g.1, g.2, [])
  let ctrs ← compute_state_counters fuel sec
  let legendRes : List Cmd × ℤ ← stateKeys.foldlM
    (fun (acc : List Cmd × ℤ) s => do
      let legendY := acc.2
      let label := (dictGet statesKvs (kInt s)).getD
        ((dictGet statesKvs (kStr (toString s))).getD (pStr ""))
      let sqCmd := Cmd.rect (Frac.ofInt x) (Frac.ofInt (legendY - 14))
        (Frac.ofInt legendSquareSize) (Frac.ofInt legendSquareSize)
        (Frac.ofInt 2) (Frac.ofInt 2) ("square state-" ++ toString s)
      let txt : String ←
        if s = 0 then pure (pyStr label)
        else do
          let ct := (lookupCounter ctrs.1 s).getD (0, ctrs.2)
          let pct : Frac :=
            if ct.2 ≠ 0 then
              ((Frac.ofInt (ct.1 : ℤ)).div (Frac.ofInt (ct.2 : ℤ))).mul (Frac.ofInt 100)
            else Frac.ofInt 0
          let unitV := (dictGet skvs (kStr "unit")).getD (pDict [])
          let unitPlural ← pyGetE unitV "plural" (pStr "units")
          pure (pyStr label ++ " (" ++ toString ct.1 ++ "/" ++ toString ct.2
            ++ " " ++ pyStr unitPlural ++ ", " ++ fmtQ1 pct ++ "%)")
      let txtCmd := Cmd.text (Frac.ofInt (x + legendSquareSize + 8))
        (Frac.ofInt legendY) "legend" txt
      pure (acc.1 ++ [sqCmd, txtCmd], legendY + legendSpacing))
    (([] : List Cmd), bodyRes.2.1 + 16)
  let finalHeight := legendRes.2 + legendPaddingBottom
  let cmds := Cmd.rect (Frac.ofInt 0) (Frac.ofInt 0) (Frac.ofInt canvasWidth)
      (Frac.ofInt finalHeight) (Frac.ofInt 0) (Frac.ofInt 0) "bg"
    :: (cmds1 ++ tRes.1 ++ bodyRes.1 ++ legendRes.1)
  pure (cmds, finalHeight, maxX, bodyRes.2.2)

/-- `render_section_svg` at `main`'s call site: every parameter at its
declared default. -/
def render_section_default (sec : PyVal) :
    Except String (List Cmd × ℤ × Frac × List String) :=
  render_section_svg sec 100 500 24 false 32 24 12 24 8 2 2 16 20 16

/-!
Statement helpers: the canonical-section shape (for the idempotence claim),
and small extractors over command lists.
-/

/-- A canonical subgroup, as the Normalizer emits it. -/
structure CSub where
  sid : PyVal
  slabel : PyVal
  stotal : ℤ
  sunits : List (PyKey × PyVal)

/-- A canonical group: a container of subgroups or a leaf. -/
inductive CGroup where
  | container (gid glabel : PyVal) (subs : List CSub)
  | leaf (gid glabel : PyVal) (gtotal : ℤ) (gunits : List (PyKey × PyVal))

/-- A canonical section, as the Normalizer emits it. -/
structure CSection where
  skey : PyKey
  stitle : PyVal
  suname : PyVal
  suplural : PyVal
  sstates : List (ℤ × String)
  sfinal : Option ℤ
  sgroups : List CGroup
  stopUnits : Option (List (PyKey × PyVal))

/-- The dictionary a canonical subgroup denotes. -/
def CSub.toPy (s : CSub) : PyVal :=
  pDict [(kStr "id", s.sid), (kStr "label", s.slabel),
         (kStr "total", pInt s.stotal), (kStr "units", pDict s.sunits)]

/-- The dictionary a canonical group denotes. -/
def CGroup.toPy : CGroup → PyVal
  | CGroup.container gid glabel subs =>
      pDict [(kStr "id", gid), (kStr "label", glabel),
             (kStr "subgroups", pList (subs.map CSub.toPy))]
  | CGroup.leaf gid glabel t units =>
      pDict [(kStr "id", gid), (kStr "label", glabel),
             (kStr "total", pInt t), (kStr "units", pDict units)]

/-- The dictionary a canonical section denotes. -/
def CSection.toPy (c : CSection) : PyVal :=
  pDict ([(kStr "id", keyPy c.skey), (kStr "title", c.stitle),
          (kStr "unit", pDict [(kStr "name", c.suname), (kStr "plural", c.suplural)]),
          (kStr "states", pDict (c.sstates.map (fun p => (kInt p.1, pStr p.2)))),
          (kStr "final_state", c.sfinal.elim pNone pInt),
          (kStr "groups", pList (c.sgroups.map CGroup.toPy))]
    ++ (match c.stopUnits with
        | none => []
        | some u => [(kStr "units", pDict u)]))

/-- Identifier sanity of a canonical group: the Normalizer never emits a
group or subgroup whose `id` is `None`. -/
def CGroup.idOk : CGroup → Prop
  | CGroup.container gid _ subs => gid ≠ pNone ∧ ∀ s ∈ subs, s.sid ≠ pNone
  | CGroup.leaf gid _ _ _ => gid ≠ pNone

/-- Well-formedness of a canonical section: distinct state keys and sane
group identifiers (both hold of every Normalizer output). -/
def CSection.WF (c : CSection) : Prop :=
  (c.sstates.map Prod.fst).Nodup ∧ ∀ g ∈ c.sgroups, g.idOk

/-- The `id` entry of a canonical section, read back as a dictionary key. -/
def idKey (s : PyVal) : Option PyKey :=
  match s with
  | pDict kvs =>
      match dictGet kvs (kStr "id") with
      | some (pStr t) => some (kStr t)
      | some (pInt n) => some (kInt n)
      | _ => none
  | _ => none

/-- Wrap one section as a fresh `{"sections": {key: sec}}` root, the input
shape `interpret_sections` consumes. -/
def wrapSection (k : PyKey) (s : PyVal) : PyVal :=
  pDict [(kStr "sections", pDict [(k, s)])]

/-- The issues that re-normalizing a canonical section records: one warning
when its `groups` list is empty and one when its top-level `units` mapping
is present and empty (and nothing else). -/
def rerun_warnings (k : PyKey) (s : PyVal) : List String :=
  match s with
  | pDict kvs =>
      (match dictGet kvs (kStr "groups") with
       | some (pList []) => [secMsg k ": 'groups' is empty."]
       | _ => []) ++
      (match dictGet kvs (kStr "units") with
       | some (pDict []) => [secMsg k ": top-level 'units' is empty."]
       | _ => [])
  | _ => []

/-- The contents of the legend `TEXT` commands of a command list. -/
def legend_texts (cmds : List Cmd) : List String :=
  cmds.filterMap (fun c =>
    match c with
    | Cmd.text _ _ cls t => if cls = "legend" then some t else none
    | _ => none)

/-- The number of grid-cell rectangles (width `w`) of a command list. -/
def cell_rect_count (w : ℤ) (cmds : List Cmd) : ℕ :=
  cmds.countP (fun c =>
    match c with
    | Cmd.rect _ _ w2 _ _ _ _ => w2 = Frac.ofInt w
    | _ => false)

/-- The Fatal-input predicate of the Normalizer: the root is not a mapping,
or its `sections` entry is missing (a stored `None` is indistinguishable
from a missing key for `dict.get`) or not a mapping. -/
def fatalInput : PyVal → Prop
  | pDict pkvs =>
      match (dictGet pkvs (kStr "sections")).getD pNone with
      | pDict _ => False
      | _ => True
  | _ => True

/-- The flat-section scenario input of the specification. -/
def c1input : PyVal :=
  pDict [(kStr "sections", pDict [(kStr "p1", pDict
    [(kStr "title", pStr "Part 1"),
     (kStr "unit", pDict [(kStr "name", pStr "page"), (kStr "plural", pStr "pages")]),
     (kStr "states", pDict [(kInt 0, pStr "todo"), (kInt 1, pStr "done")]),
     (kStr "units", pDict [(kStr "a", pInt 0), (kStr "b", pInt 1), (kStr "c", pInt 1)])])])]

/-- The canonical section the Normalizer produces for `c1input`. -/
def c1canonical : PyVal :=
  pDict [(kStr "id", pStr "p1"),
         (kStr "title", pStr "Part 1"),
         (kStr "unit", pDict [(kStr "name", pStr "page"), (kStr "plural", pStr "pages")]),
         (kStr "states", pDict [(kInt 0, pStr "todo"), (kInt 1, pStr "done")]),
         (kStr "final_state", pNone),
         (kStr "groups", pList []),
         (kStr "units", pDict [(kStr "a", pInt 0), (kStr "b", pInt 1), (kStr "c", pInt 1)])]

/-- A section whose single group holds a unit with a state value `int()`
cannot coerce. -/
def c3section : PyVal :=
  pDict [(kStr "states", pDict [(kInt 0, pStr "todo"), (kInt 1, pStr "done")]),
         (kStr "groups", pList [pDict [(kStr "id", pStr "g"),
           (kStr "units", pDict [(kStr "a", pStr "abc")])]])]

/-- A grouped section with three units at states 1, 2, 0. -/
def c6sectionEx : PyVal :=
  pDict [(kStr "states", pDict [(kInt 0, pStr "s0"), (kInt 1, pStr "s1"), (kInt 2, pStr "s2")]),
         (kStr "groups", pList [pDict [(kStr "id", pStr "g"),
           (kStr "units", pDict [(kStr "a", pInt 1), (kStr "b", pInt 2), (kStr "c", pInt 0)])]])]

/-- A leaf group listing one unit but declaring `total: 3`. -/
def c2group : PyVal :=
  pDict [(kStr "units", pDict [(kStr "a", pInt 0)]), (kStr "total", pInt 3)]

/-- A leaf group with no units and a negative declared total. -/
def c8badGroup : PyVal := pDict [(kStr "total", pInt (-1))]

/-- A leaf group with two units. -/
def c8group : PyVal :=
  pDict [(kStr "id", pStr "g"),
         (kStr "units", pDict [(kStr "a", pInt 0), (kStr "b", pInt 2)])]

/-- A leaf group with three units listed out of order. -/
def c10group : PyVal :=
  pDict [(kStr "id", pStr "g"),
         (kStr "units", pDict [(kStr "b", pInt 1), (kStr "a", pInt 0), (kStr "c", pInt 2)])]

/-!
Theorems.
-/

/-- `Except.ok` on the left of a bind. -/
theorem except_bind_ok {ε α β : Type} (a : α) (f : α → Except ε β) :
    (Except.ok a >>= f) = f a := rfl

/-- `Except.error` on the left of a bind. -/
theorem except_bind_err {ε α β : Type} (e : ε) (f : α → Except ε β) :
    ((Except.error e : Except ε α) >>= f) = .error e := rfl

/-- Claim C1: the specification's flat-section scenario expects the state-1
counter `(2, 3)` and the legend text `"done (2/3 pages, 66.7%)"`, the
Counters map counting every leaf unit including a flat top-level unit
mapping.  The code does not: `compute_state_counters` collects units only
from `section["groups"]`, so for the canonical flat section (whose `groups`
list is empty and whose three units sit in the top-level `units` mapping)
the state-1 counter is `(0, 0)` and the legend line reads
`"done (0/0 pages, 0.0%)"` — even though the renderer does draw the three
unit cells (three grid rectangles of cell width 24) from the very same
mapping via its synthetic group. -/
theorem c1_code_eval :
    interpret_sections c1input = (some [c1canonical], [], [])
    ∧ compute_state_counters 100 c1canonical = .ok ([(1, 0, 0)], 0)
    ∧ Except.map (fun r => legend_texts r.1) (render_section_default c1canonical)
        = .ok ["todo", "done (0/0 pages, 0.0%)"]
    ∧ Except.map (fun r => cell_rect_count 24 r.1) (render_section_default c1canonical)
        = .ok 3 :=
  ⟨rfl, rfl, rfl, rfl⟩

/-- Claim C5: the spec says the orchestrator tracks the rightmost pixel
extent of every emitted text and rectangle.  The tracker `max_x` is
initialised to the left margin and the update helpers are never called: on
the flat scenario section the reported maximum stays `24` although a grid
rectangle at `x = 88` of width `24` was emitted, whose right edge plus
right padding is `136 > 24`. -/
theorem c5_code_eval :
    Except.map (fun r => r.2.2.1) (render_section_default c1canonical)
      = .ok (Frac.ofInt 24)
    ∧ Except.map
        (fun r => decide
          (Cmd.rect ⟨88, 1⟩ ⟨24, 1⟩ ⟨24, 1⟩ ⟨24, 1⟩ ⟨2, 1⟩ ⟨2, 1⟩ "square state-1" ∈ r.1))
        (render_section_default c1canonical) = .ok true
    ∧ Frac.lt (Frac.ofInt 24) (Frac.ofInt (88 + 24 + 24)) = true :=
  ⟨rfl, rfl, rfl⟩

/-- Sorting a list already sorted for `le` is the identity. -/
theorem sortLe_of_chain {α : Type} (le : α → α → Bool) :
    ∀ l : List α, l.Chain' (fun a b => le a b = true) → sortLe le l = l := by
  intro l h
  induction l with
  | nil => rfl
  | cons a t ih =>
      cases t with
      | nil => rfl
      | cons b t2 =>
          rw [List.chain'_cons] at h
          show insertLe le a (sortLe le (b :: t2)) = a :: b :: t2
          rw [ih h.2]
          show (if le a b then a :: b :: t2 else b :: insertLe le a t2) = a :: b :: t2
          rw [if_pos h.1]

/-- If `a < b` then not `b <= a` (positive denominators). -/
theorem frac_lt_not_le (a b : Frac) (h : Frac.lt a b = true) :
    Frac.le b a = false := by
  simp only [Frac.lt, decide_eq_true_eq] at h
  simp only [Frac.le, decide_eq_false_iff_not]
  omega

/-- Claim C7 falls on a valid stop list with two stops at position 1: the
interpolator at value 1.0 returns the first stop's color (the clamp
`value <= colors[0][0]` fires first), not the last stop's. -/
theorem c7_counterexample :
    interpolate_color [(⟨1, 1⟩, "#FF0000"), (⟨1, 1⟩, "#0000FF")] ⟨1, 1⟩
      = .ok (some "#FF0000")
    ∧ "#FF0000" ≠ "#0000FF" :=
  ⟨rfl, by decide⟩

/-- Claim C7 as amended: for a sorted non-empty stop list with positions in
`[0, 1]` (well-formed fractions), value `0.0` yields the first stop's
color; value `1.0` yields the last stop's color provided the list is a
single stop or the first position is strictly below 1 (with several stops
tied at position 1 the earliest wins); and any value outside `[0, 1]`
raises the out-of-range error. -/
theorem c7_amended (stops : List (Frac × String))
    (hne : stops ≠ [])
    (hwf : ∀ p ∈ stops, 0 < p.1.den ∧ Frac.le (Frac.ofInt 0) p.1 = true
             ∧ Frac.le p.1 (Frac.ofInt 1) = true)
    (hsort : stops.Chain' (fun a b => Frac.le a.1 b.1 = true)) :
    interpolate_color stops (Frac.ofInt 0) = .ok (some (stops.head hne).2)
    ∧ ((stops.length = 1 ∨ Frac.lt (stops.head hne).1 (Frac.ofInt 1) = true) →
        interpolate_color stops (Frac.ofInt 1) = .ok (some (stops.getLast hne).2))
    ∧ (∀ w : Frac, 0 < w.den →
        (Frac.lt w (Frac.ofInt 0) = true ∨ Frac.lt (Frac.ofInt 1) w = true) →
        interpolate_color stops w = .error "Value must be between 0 and 1") := by
  have hsid : sortLe (fun a b => Frac.le a.1 b.1) stops = stops := by
    exact sortLe_of_chain _ stops hsort
  obtain ⟨c0, rest, rfl⟩ : ∃ c0 rest, stops = c0 :: rest := by
    cases stops with
    | nil => exact absurd rfl hne
    | cons c0 rest => exact ⟨c0, rest, rfl⟩
  have h0 := hwf c0 (List.mem_cons_self c0 rest)
  refine ⟨?_, ?_, ?_⟩
  · show interpolate_color (c0 :: rest) (Frac.ofInt 0) = .ok (some c0.2)
    unfold interpolate_color
    rw [if_neg (by simp [Frac.le, Frac.ofInt])]
    simp only [hsid]
    rw [if_pos h0.2.1]
  · intro hcase
    unfold interpolate_color
    rw [if_neg (by simp [Frac.le, Frac.ofInt])]
    simp only [hsid]
    rcases hcase with h1 | hlt
    · obtain rfl : rest = [] := by
        cases rest with
        | nil => rfl
        | cons x xs => simp at h1
      by_cases hcc : Frac.le (Frac.ofInt 1) c0.1 = true
      · rw [if_pos hcc]; rfl
      · rw [if_neg (by simp [hcc])]
        rw [if_pos (by simpa using h0.2.2)]
    · have hle : Frac.le (Frac.ofInt 1) c0.1 = false := by
        have := frac_lt_not_le c0.1 (Frac.ofInt 1) hlt
        simpa [Frac.ofInt] using this
      rw [if_neg (by simp [hle])]
      have hlast := hwf ((c0 :: rest).getLast (by simp))
        (List.getLast_mem (by simp))
      rw [if_pos hlast.2.2]
  · intro w hden hw
    unfold interpolate_color
    rw [if_pos]
    intro hcon
    rcases hcon with ⟨ha, hb⟩
    have ha2 : 0 ≤ w.num := by simpa [Frac.le, Frac.ofInt] using ha
    have hb2 : w.num ≤ w.den := by simpa [Frac.le, Frac.ofInt] using hb
    rcases hw with h | h
    · have h2 : w.num < 0 := by simpa [Frac.lt, Frac.ofInt] using h
      omega
    · have h2 : w.den < w.num := by simpa [Frac.lt, Frac.ofInt] using h
      omega

/-- Witness for `c7_amended` at the two-stop gradient `[(0, dark), (1, light)]`. -/
theorem c7_amended_witness :
    interpolate_color [(⟨0, 1⟩, "#161c23"), (⟨1, 1⟩, "#39d255")] (Frac.ofInt 0)
      = .ok (some "#161c23")
    ∧ interpolate_color [(⟨0, 1⟩, "#161c23"), (⟨1, 1⟩, "#39d255")] (Frac.ofInt 1)
      = .ok (some "#39d255")
    ∧ interpolate_color [(⟨0, 1⟩, "#161c23"), (⟨1, 1⟩, "#39d255")] ⟨3, 2⟩
      = .error "Value must be between 0 and 1" :=
  have h := c7_amended [(⟨0, 1⟩, "#161c23"), (⟨1, 1⟩, "#39d255")]
    (by decide) (by decide)
    (by exact List.Chain.cons (by decide) List.Chain.nil)
  ⟨h.1, h.2.1 (Or.inr (by decide)), h.2.2 ⟨3, 2⟩ (by decide) (Or.inr (by decide))⟩

/-- Claim C9: the Normalizer returns no section list exactly when the root
is not a mapping, or its `sections` entry is missing or not a mapping; in
each fatal case exactly one error (and no warning) is recorded; every other
input yields a (possibly empty) section list. -/
theorem c9_fatal_iff (p : PyVal) :
    ((interpret_sections p).1 = none ↔ fatalInput p)
    ∧ (fatalInput p → (interpret_sections p).2.1.length = 1
        ∧ (interpret_sections p).2.2 = [])
    ∧ (¬ fatalInput p → ∃ l, (interpret_sections p).1 = some l) := by
  cases p with
  | pDict pkvs =>
      cases hv : (dictGet pkvs (kStr "sections")).getD pNone with
      | pNone => simp [interpret_sections, fatalInput, hv]
      | pBool b => simp [interpret_sections, fatalInput, hv]
      | pInt n => simp [interpret_sections, fatalInput, hv]
      | pStr s => simp [interpret_sections, fatalInput, hv]
      | pList l => simp [interpret_sections, fatalInput, hv]
      | pDict skvs => simp [interpret_sections, fatalInput, hv]
  | pNone => simp [interpret_sections, fatalInput]
  | pBool b => simp [interpret_sections, fatalInput]
  | pInt n => simp [interpret_sections, fatalInput]
  | pStr s => simp [interpret_sections, fatalInput]
  | pList l => simp [interpret_sections, fatalInput]

/-- Witness for `c9_fatal_iff`: a non-mapping root is fatal with one
recorded error. -/
theorem c9_fatal_iff_witness :
    (interpret_sections pNone).1 = none
    ∧ (interpret_sections pNone).2.1.length = 1 :=
  have h := c9_fatal_iff pNone
  ⟨h.1.mpr (True.intro : fatalInput pNone), (h.2.1 (True.intro : fatalInput pNone)).1⟩

/-- Membership after a Python-style dict assignment. -/
theorem mem_assocSet {β : Type} :
    ∀ (l : List (ℤ × β)) (k : ℤ) (v : β) (x : ℤ × β),
      x ∈ assocSet l k v → x ∈ l ∨ x = (k, v) := by
  intro l k v
  induction l with
  | nil =>
      intro x hx
      simp only [assocSet] at hx
      right
      simpa using hx
  | cons h t ih =>
      obtain ⟨k2, v2⟩ := h
      intro x hx
      simp only [assocSet] at hx
      by_cases hk : k = k2
      · rw [if_pos hk] at hx
        rcases List.mem_cons.mp hx with h1 | h1
        · right; simpa using h1
        · left; exact List.mem_cons_of_mem _ h1
      · rw [if_neg hk] at hx
        rcases List.mem_cons.mp hx with h1 | h1
        · left; simp [h1]
        · rcases ih x h1 with h2 | h2
          · left; exact List.mem_cons_of_mem _ h2
          · right; exact h2

/-- Every entry of the counters fold carries the count of unit states at or
above its key and the total unit count. -/
theorem build_counters_mem (L : List ℤ) :
    ∀ (keys : List ℤ) (acc : List (ℤ × ℕ × ℕ)),
      (∀ x ∈ acc, x.2.1 = L.countP (fun v => decide (x.1 ≤ v)) ∧ x.2.2 = L.length) →
      ∀ x ∈ keys.foldl
          (fun acc s =>
            if s = 0 then acc
            else assocSet acc s (L.countP (fun v => decide (s ≤ v)), L.length))
          acc,
        x.2.1 = L.countP (fun v => decide (x.1 ≤ v)) ∧ x.2.2 = L.length := by
  intro keys
  induction keys with
  | nil => intro acc hacc x hx; exact hacc x hx
  | cons s ks ih =>
      intro acc hacc x hx
      simp only [List.foldl_cons] at hx
      by_cases hs : s = 0
      · rw [if_pos hs] at hx
        exact ih acc hacc x hx
      · rw [if_neg hs] at hx
        refine ih _ ?_ x hx
        intro y hy
        rcases mem_assocSet acc s _ y hy with h1 | h1
        · exact hacc y h1
        · rw [h1]
          exact ⟨rfl, rfl⟩

/-- A count under a weaker predicate is at least the count under a
stronger one. -/
theorem countP_le_countP {α : Type} (p q : α → Bool) :
    ∀ l : List α, (∀ a ∈ l, p a = true → q a = true) →
      l.countP p ≤ l.countP q := by
  intro l
  induction l with
  | nil => intro _; simp
  | cons a t ih =>
      intro h
      simp only [List.countP_cons]
      have ht := ih (fun b hb => h b (List.mem_cons_of_mem a hb))
      by_cases hp : p a = true
      · rw [hp, h a (List.mem_cons_self a t) hp]
        omega
      · have hpf : p a = false := by simpa using hp
        rw [hpf]
        cases hq : q a <;> simp <;> omega

/-- `pure` on `Except` is `Except.ok`. -/
theorem except_pure {ε α : Type} (a : α) : (pure a : Except ε α) = Except.ok a := rfl

/-- Inversion of a successful `compute_state_counters` run: the counters
are the fold over some key list of the count/total pairs of one collected
state list, whose length is the reported total. -/
theorem compute_ok_inv (fuel : ℕ) (sec : PyVal) (counters : List (ℤ × ℕ × ℕ))
    (tot : ℕ) (h : compute_state_counters fuel sec = .ok (counters, tot)) :
    ∃ keys L, counters = build_counters keys L ∧ tot = L.length := by
  unfold compute_state_counters at h
  cases h1 : pyGetE sec "states" (pDict []) with
  | error e => rw [h1] at h; simp [except_bind_err] at h
  | ok states =>
  rw [h1] at h
  simp only [except_bind_ok] at h
  cases h2 : pyGetE sec "groups" (pList []) with
  | error e => rw [h2] at h; simp [except_bind_err] at h
  | ok groupsVal =>
  rw [h2] at h
  simp only [except_bind_ok] at h
  cases h3 : pyIter groupsVal with
  | none => rw [h3] at h; simp [except_bind_err] at h
  | some grps =>
  rw [h3] at h
  simp only [except_bind_ok] at h
  cases h4 : exceptMapM (collect_units fuel) grps with
  | error e => rw [h4] at h; simp [except_bind_err] at h
  | ok lists =>
  rw [h4] at h
  simp only [except_bind_ok] at h
  cases states with
  | pDict stateKvs =>
      simp only [except_bind_ok] at h
      cases h6 : stateKeyInts (stateKvs.map Prod.fst) with
      | error e => rw [h6] at h; simp [except_bind_err] at h
      | ok rawKeys =>
          rw [h6] at h
          simp only [except_bind_ok, except_pure, Except.ok.injEq, Prod.mk.injEq] at h
          exact ⟨sortLe (fun a b => a ≤ b) rawKeys, lists.flatten, h.1.symm, h.2.symm⟩
  | pNone => simp [except_bind_err] at h
  | pBool b => simp [except_bind_err] at h
  | pInt n => simp [except_bind_err] at h
  | pStr s => simp [except_bind_err] at h
  | pList l => simp [except_bind_err] at h

/-- Claim C6: every counter `(c, t)` of the State Aggregator satisfies
`0 ≤ c ≤ t` with `t` the total unit count, and the completed count is
non-increasing in the state key. -/
theorem c6_counters_sound (fuel : ℕ) (sec : PyVal)
    (counters : List (ℤ × ℕ × ℕ)) (tot : ℕ)
    (h : compute_state_counters fuel sec = .ok (counters, tot)) :
    (∀ x ∈ counters, x.2.1 ≤ x.2.2 ∧ x.2.2 = tot)
    ∧ (∀ s1 c1 t1 s2 c2 t2, (s1, c1, t1) ∈ counters → (s2, c2, t2) ∈ counters →
        s1 ≤ s2 → c2 ≤ c1) := by
  obtain ⟨keys, L, hc, ht⟩ := compute_ok_inv fuel sec counters tot h
  subst hc
  subst ht
  have hmem := build_counters_mem L keys [] (by simp)
  constructor
  · intro x hx
    have hx2 := hmem x (by rw [build_counters] at hx; exact hx)
    refine ⟨?_, hx2.2⟩
    rw [hx2.1, hx2.2]
    exact List.countP_le_length _
  · intro s1 c1 t1 s2 c2 t2 h1 h2 hle
    have e1 := hmem (s1, c1, t1) (by rw [build_counters] at h1; exact h1)
    have e2 := hmem (s2, c2, t2) (by rw [build_counters] at h2; exact h2)
    simp only at e1 e2
    rw [e1.1, e2.1]
    refine countP_le_countP _ _ L ?_
    intro a _ ha
    simp only [decide_eq_true_eq] at ha ⊢
    omega

/-- Witness for `c6_counters_sound`: a section of three units at states
1, 2, 0 yields counters `{1 ↦ (2, 3), 2 ↦ (1, 3)}`. -/
theorem c6_counters_sound_witness :
    compute_state_counters 9 c6sectionEx = .ok ([(1, 2, 3), (2, 1, 3)], 3)
    ∧ (∀ x ∈ [((1 : ℤ), (2 : ℕ), (3 : ℕ)), (2, 1, 3)], x.2.1 ≤ x.2.2 ∧ x.2.2 = 3)
    ∧ (∀ s1 c1 t1 s2 c2 t2,
        (s1, c1, t1) ∈ [((1 : ℤ), (2 : ℕ), (3 : ℕ)), (2, 1, 3)] →
        (s2, c2, t2) ∈ [((1 : ℤ), (2 : ℕ), (3 : ℕ)), (2, 1, 3)] →
        s1 ≤ s2 → c2 ≤ c1) :=
  have h := c6_counters_sound 9 c6sectionEx [(1, 2, 3), (2, 1, 3)] 3 rfl
  ⟨rfl, h.1, h.2⟩

/-- An `exceptMapM` fails when any element fails. -/
theorem mapM_except_error {ε α β : Type} (f : α → Except ε β) :
    ∀ l : List α, (∃ x ∈ l, ∃ e, f x = .error e) →
      ∃ e2, exceptMapM f l = .error e2 := by
  intro l
  induction l with
  | nil => intro h; simp at h
  | cons a t ih =>
      intro h
      cases hfa : f a with
      | error e => exact ⟨e, by simp [exceptMapM, hfa, except_bind_err]⟩
      | ok b =>
          obtain ⟨x, hx, e, hfx⟩ := h
          rcases List.mem_cons.mp hx with rfl | hx2
          · rw [hfa] at hfx; exact absurd hfx (by simp)
          · obtain ⟨e2, he2⟩ := ih ⟨x, hx2, e, hfx⟩
            exact ⟨e2, by simp [exceptMapM, hfa, he2, except_bind_ok, except_bind_err]⟩

/-- A dictionary with a successful lookup is non-empty (hence truthy). -/
theorem dictGet_some_ne_nil (kvs : List (PyKey × PyVal)) (k : PyKey)
    (v : PyVal) (h : dictGet kvs k = some v) : kvs ≠ [] := by
  cases kvs with
  | nil => simp [dictGet] at h
  | cons a t => simp

/-- `collect_units` fails on a truthy dict node one of whose unit values
`int()` cannot coerce. -/
theorem collect_units_error (fuel : ℕ) (gkvs : List (PyKey × PyVal))
    (ukvs : List (PyKey × PyVal)) (kv : PyKey × PyVal)
    (hu : dictGet gkvs (kStr "units") = some (pDict ukvs))
    (hkv : kv ∈ ukvs) (hbad : pyInt kv.2 = none) :
    ∃ e, collect_units fuel (pDict gkvs) = .error e := by
  cases fuel with
  | zero => exact ⟨"RecursionError", rfl⟩
  | succ fuel =>
      have hne : gkvs ≠ [] := dictGet_some_ne_nil gkvs (kStr "units") (pDict ukvs) hu
      have htr : pyTruthy (pDict gkvs) = true := by
        cases gkvs with
        | nil => exact absurd rfl hne
        | cons a t => simp [pyTruthy]
      obtain ⟨e, he⟩ := mapM_except_error
        (fun kv : PyKey × PyVal =>
          match pyInt kv.2 with
          | some n => Except.ok n
          | none => Except.error "ValueError: int() cannot coerce unit state")
        ukvs ⟨kv, hkv, "ValueError: int() cannot coerce unit state", by simp [hbad]⟩
      refine ⟨e, ?_⟩
      unfold collect_units
      rw [if_neg (by simp [htr])]
      simp only [hu, he, except_bind_err]

/-- Claim C3 falls on the State Aggregator: a unit value `int()` cannot
coerce (here the string `"abc"`) raises an error instead of counting as
state 0. -/
theorem c3_counterexample :
    pyInt (pStr "abc") = none
    ∧ compute_state_counters 9 c3section
        = .error "ValueError: int() cannot coerce unit state" :=
  ⟨rfl, rfl⟩

/-- Claim C3 as amended: the Grid Layout Generator treats a unit that is
missing from the mapping, or whose value `int()` cannot coerce, as state 0
and never raises; the State Aggregator instead raises an error whenever a
collected unit value cannot be coerced (and `int()`-coercible non-integer
values, such as numeric strings, convert to their integer value in both). -/
theorem c3_amended :
    (∀ (m : List (PyKey × PyVal)) (uid : PyKey),
        dictGet m uid = none → grid_state_val m uid = 0)
    ∧ (∀ (m : List (PyKey × PyVal)) (uid : PyKey) (v : PyVal),
        dictGet m uid = some v → pyInt v = none → grid_state_val m uid = 0)
    ∧ (∀ (m : List (PyKey × PyVal)) (uid : PyKey) (v : PyVal) (n : ℤ),
        dictGet m uid = some v → pyInt v = some n → grid_state_val m uid = n)
    ∧ (∀ (fuel : ℕ) (skvs gkvs ukvs : List (PyKey × PyVal))
        (gs : List PyVal) (kv : PyKey × PyVal),
        dictGet skvs (kStr "groups") = some (pList gs) →
        (pDict gkvs) ∈ gs →
        dictGet gkvs (kStr "units") = some (pDict ukvs) →
        kv ∈ ukvs → pyInt kv.2 = none →
        ∃ e, compute_state_counters fuel (pDict skvs) = .error e) := by
  refine ⟨?_, ?_, ?_, ?_⟩
  · intro m uid h
    simp [grid_state_val, h, pyInt]
  · intro m uid v h hv
    simp [grid_state_val, h, hv]
  · intro m uid v n h hv
    simp [grid_state_val, h, hv]
  · intro fuel skvs gkvs ukvs gs kv hg hmem hu hkv hbad
    obtain ⟨e, he⟩ := collect_units_error fuel gkvs ukvs kv hu hkv hbad
    obtain ⟨e2, he2⟩ := mapM_except_error (collect_units fuel) gs
      ⟨pDict gkvs, hmem, e, he⟩
    refine ⟨e2, ?_⟩
    unfold compute_state_counters
    have h1 : pyGetE (pDict skvs) "states" (pDict [])
        = .ok ((dictGet skvs (kStr "states")).getD (pDict [])) := rfl
    have h2 : pyGetE (pDict skvs) "groups" (pList [])
        = .ok ((dictGet skvs (kStr "groups")).getD (pList [])) := rfl
    rw [h1]
    simp only [except_bind_ok]
    rw [h2, hg]
    simp only [Option.getD_some, pyIter, he2, except_bind_ok, except_bind_err]

/-- Witness for `c3_amended`: a missing unit, a `None`-valued unit, a
numeric-string unit, and the aggregator error on `c3section`. -/
theorem c3_amended_witness :
    grid_state_val [] (kStr "z") = 0
    ∧ grid_state_val [(kStr "a", pNone)] (kStr "a") = 0
    ∧ grid_state_val [(kStr "a", pStr "5")] (kStr "a") = 5
    ∧ (∃ e, compute_state_counters 9
        (pDict [(kStr "states", pDict [(kInt 0, pStr "todo"), (kInt 1, pStr "done")]),
                (kStr "groups", pList [pDict [(kStr "id", pStr "g"),
                  (kStr "units", pDict [(kStr "a", pStr "abc")])]])])
        = .error e) :=
  ⟨c3_amended.1 [] (kStr "z") rfl,
   c3_amended.2.1 [(kStr "a", pNone)] (kStr "a") pNone rfl rfl,
   c3_amended.2.2.1 [(kStr "a", pStr "5")] (kStr "a") (pStr "5") 5 rfl rfl,
   c3_amended.2.2.2 9 _ [(kStr "id", pStr "g"), (kStr "units", pDict [(kStr "a", pStr "abc")])]
     [(kStr "a", pStr "abc")] _ (kStr "a", pStr "abc") rfl
     (List.mem_singleton.mpr rfl) rfl (List.mem_singleton.mpr rfl) rfl⟩

/-- Closed form of the inner cell loop: starting at cell index `idx` with
`k` column iterations left, it emits the cells `idx, idx+1, …` until the
iterations or the cells run out, the `j`-th at column `cols - k + j`. -/
theorem grid_row_cells_eq (emit : ℤ → ℤ → ℕ → List Cmd) (n cols : ℤ) (r : ℤ) :
    ∀ (k idx : ℕ),
      grid_row_cells emit n cols r k idx =
        (((List.range (min k (n - (idx : ℤ)).toNat)).map
            (fun (j : ℕ) => emit r (cols - (k : ℤ) + (j : ℤ)) (idx + j))).flatten,
         idx + min k (n - (idx : ℤ)).toNat) := by
  intro k
  induction k with
  | zero =>
      intro idx
      simp [grid_row_cells]
  | succ k ih =>
      intro idx
      by_cases hn : n ≤ (idx : ℤ)
      · have h0 : (n - (idx : ℤ)).toNat = 0 := by omega
        unfold grid_row_cells
        rw [if_pos hn]
        simp [h0]
      · push_neg at hn
        have hm : min (k + 1) (n - (idx : ℤ)).toNat
            = min k (n - ((idx : ℤ) + 1)).toNat + 1 := by omega
        unfold grid_row_cells
        rw [if_neg (by omega)]
        rw [ih (idx + 1)]
        simp only [Prod.mk.injEq]
        constructor
        · rw [show ((idx : ℕ) + 1 : ℕ) = idx + 1 from rfl]
          push_cast
          rw [hm, List.range_succ_eq_map, List.map_cons, List.flatten_cons]
          congr 1
          · congr 1
            push_cast
            ring
          · rw [List.map_map]
            apply congrArg
            apply List.map_congr_left
            intro j hj
            simp only [Function.comp_apply, Nat.succ_eq_add_one]
            congr 1
            · push_cast; ring
            · omega
        · push_cast
          omega

/-- Once the cell index reaches the cell count, the remaining rows emit
nothing. -/
theorem grid_rows_stop (emit : ℤ → ℤ → ℕ → List Cmd) (n cols : ℤ) :
    ∀ (rs : ℕ) (r : ℤ) (idx : ℕ), n ≤ (idx : ℤ) →
      grid_rows emit n cols rs r idx = [] := by
  intro rs
  induction rs with
  | zero => intro r idx _; rfl
  | succ rs ih =>
      intro r idx h
      unfold grid_rows
      rw [grid_row_cells_eq]
      have h0 : (n - (idx : ℤ)).toNat = 0 := by omega
      simp only [h0, Nat.min_zero, List.range_zero, List.map_nil,
        List.flatten_nil, List.nil_append, Nat.add_zero]
      exact ih (r + 1) idx h

/-- Closed form of the row loop, for a row-aligned start index: the cells
`idx … min(idx + rows·cols, n) - 1` are emitted in order, cell `i` at row
`i / cols` and column `i % cols`. -/
theorem grid_rows_eq (emit : ℤ → ℤ → ℕ → List Cmd) (n cols : ℤ) (hc : 1 ≤ cols) :
    ∀ (rs : ℕ) (r : ℤ) (idx : ℕ), (idx : ℤ) = r * cols →
      grid_rows emit n cols rs r idx =
        ((List.range (min (rs * cols.toNat) (n - (idx : ℤ)).toNat)).map
          (fun (j : ℕ) => emit (((idx : ℤ) + (j : ℤ)) / cols)
            (((idx : ℤ) + (j : ℤ)) % cols) (idx + j))).flatten := by
  have hcc : ((cols.toNat : ℤ)) = cols := Int.toNat_of_nonneg (by omega)
  intro rs
  induction rs with
  | zero => intro r idx _; simp [grid_rows]
  | succ rs ih =>
      intro r idx hidx
      unfold grid_rows
      rw [grid_row_cells_eq]
      simp only []
      by_cases hcase : (n - (idx : ℤ)).toNat ≤ cols.toNat
      · have hmin1 : min cols.toNat (n - (idx : ℤ)).toNat = (n - (idx : ℤ)).toNat := by
          omega
        have hstop : n ≤ ((idx + (n - (idx : ℤ)).toNat : ℕ) : ℤ) := by
          push_cast; omega
        rw [hmin1]
        rw [grid_rows_stop emit n cols rs (r + 1) _ hstop]
        rw [List.append_nil]
        have hlec : cols.toNat ≤ (rs + 1) * cols.toNat := by
          have : 1 * cols.toNat ≤ (rs + 1) * cols.toNat :=
            Nat.mul_le_mul_right cols.toNat (by omega)
          omega
        have hmin2 : min ((rs + 1) * cols.toNat) (n - (idx : ℤ)).toNat
            = (n - (idx : ℤ)).toNat := by omega
        rw [hmin2]
        apply congrArg
        apply List.map_congr_left
        intro j hj
        have hjc : (j : ℤ) < cols := by
          have := List.mem_range.mp hj
          omega
        have h1 : ((idx : ℤ) + (j : ℤ)) / cols = r := by
          rw [hidx, add_comm, Int.add_mul_ediv_right _ _ (by omega : cols ≠ 0)]
          rw [Int.ediv_eq_zero_of_lt (by omega) hjc]
          omega
        have h2 : ((idx : ℤ) + (j : ℤ)) % cols = (j : ℤ) := by
          rw [hidx, add_comm, Int.add_mul_emod_self]
          exact Int.emod_eq_of_lt (by omega) hjc
        rw [h1, h2]
        congr 1
        omega
      · push_neg at hcase
        have hmin1 : min cols.toNat (n - (idx : ℤ)).toNat = cols.toNat := by omega
        rw [hmin1]
        have hidx2 : ((idx + cols.toNat : ℕ) : ℤ) = (r + 1) * cols := by
          push_cast
          rw [hcc, hidx]
          ring
        rw [ih (r + 1) (idx + cols.toNat) hidx2]
        have hsub : (n - ((idx + cols.toNat : ℕ) : ℤ)).toNat
            = (n - (idx : ℤ)).toNat - cols.toNat := by
          push_cast
          omega
        have hsplit : min ((rs + 1) * cols.toNat) (n - (idx : ℤ)).toNat
            = cols.toNat + min (rs * cols.toNat) ((n - ((idx + cols.toNat : ℕ) : ℤ)).toNat) := by
          rw [hsub]
          have h1 : (rs + 1) * cols.toNat = cols.toNat + rs * cols.toNat := by ring
          omega
        rw [hsplit, List.range_add, List.map_append, List.flatten_append]
        congr 1
        · apply congrArg
          apply List.map_congr_left
          intro j hj
          have hjc : (j : ℤ) < cols := by
            have := List.mem_range.mp hj
            omega
          have h1 : ((idx : ℤ) + (j : ℤ)) / cols = r := by
            rw [hidx, add_comm, Int.add_mul_ediv_right _ _ (by omega : cols ≠ 0)]
            rw [Int.ediv_eq_zero_of_lt (by omega) hjc]
            omega
          have h2 : ((idx : ℤ) + (j : ℤ)) % cols = (j : ℤ) := by
            rw [hidx, add_comm, Int.add_mul_emod_self]
            exact Int.emod_eq_of_lt (by omega) hjc
          rw [h1, h2]
          congr 1
          · rw [hcc]; omega
        · rw [List.map_map]
          apply congrArg
          apply List.map_congr_left
          intro j hj
          simp only [Function.comp_apply]
          have e1 : ((idx : ℤ) + ((cols.toNat + j : ℕ) : ℤ))
              = (((idx + cols.toNat : ℕ) : ℤ) + (j : ℤ)) := by push_cast; ring
          rw [e1]
          congr 1
          omega

/-- With at least one cell, `generate_grid_commands` is a `GROUP_OPEN`,
the cells `0 … n-1` in row-major order (cell `i` at row `i / cols'` and
column `i % cols'` for the clamped column count), and a `GROUP_CLOSE`,
with the `rows`-derived height. -/
theorem generate_grid_spec (group : PyVal) (x0 y0 : Frac)
    (cols cellSize gap rx ry : ℤ) (showIds : Bool) (uo : Option (List PyKey))
    (n : ℤ) (ids : List PyKey) (ukvs : List (PyKey × PyVal))
    (h : grid_unit_ids group uo = .ok (n, ids, ukvs)) (hn : 1 ≤ n) :
    generate_grid_commands group x0 y0 cols cellSize gap rx ry showIds uo =
      .ok (Cmd.groupOpen "grid" "" ::
        (((List.range n.toNat).map (fun (i : ℕ) =>
            grid_cell_cmds ukvs ids x0 y0 cellSize gap rx ry showIds
              ((i : ℤ) / max 1 (min cols n)) ((i : ℤ) % max 1 (min cols n)) i)).flatten
          ++ [Cmd.groupClose]),
        (n + max 1 (min cols n) - 1) / max 1 (min cols n) * cellSize
          + ((n + max 1 (min cols n) - 1) / max 1 (min cols n) - 1) * gap) := by
  unfold generate_grid_commands
  rw [h]
  simp only [except_bind_ok]
  rw [if_neg (by omega)]
  have hc : 1 ≤ max 1 (min cols n) := le_max_left _ _
  set c2 : ℤ := max 1 (min cols n) with hc2
  set rows : ℤ := (n + c2 - 1) / c2 with hrows
  have hrows1 : 1 ≤ rows := by
    rw [hrows, Int.le_ediv_iff_mul_le (by omega : (0 : ℤ) < c2)]
    omega
  have hge : n ≤ rows * c2 := by
    have h1 := Int.ediv_add_emod (n + c2 - 1) c2
    have h3 := Int.emod_lt_of_pos (n + c2 - 1) (by omega : (0 : ℤ) < c2)
    have h4 : c2 * rows = n + c2 - 1 - (n + c2 - 1) % c2 := by
      rw [hrows]; omega
    have h5 : rows * c2 = c2 * rows := by ring
    omega
  rw [grid_rows_eq _ n c2 hc rows.toNat 0 0 (by simp)]
  have htn : ((rows.toNat : ℤ)) = rows := Int.toNat_of_nonneg (by omega)
  have hctn : ((c2.toNat : ℤ)) = c2 := Int.toNat_of_nonneg (by omega)
  have hmul : ((rows.toNat * c2.toNat : ℕ) : ℤ) = rows * c2 := by
    push_cast
    rw [htn, hctn]
  have hminN : min (rows.toNat * c2.toNat) ((n - ((0 : ℕ) : ℤ)).toNat) = n.toNat := by
    omega
  rw [hminN]
  apply congrArg
  simp only [Prod.mk.injEq]
  constructor
  · apply congrArg (fun l => Cmd.groupOpen "grid" "" :: (l ++ [Cmd.groupClose]))
    apply congrArg
    apply List.map_congr_left
    intro i _
    simp only [Nat.cast_zero, zero_add]
  · trivial

/-- One grid cell always contributes exactly one rectangle. -/
theorem grid_cell_rect_count (ukvs : List (PyKey × PyVal)) (ids : List PyKey)
    (x0 y0 : Frac) (cellSize gap rx ry : ℤ) (showIds : Bool) (r c : ℤ) (i : ℕ) :
    (grid_cell_cmds ukvs ids x0 y0 cellSize gap rx ry showIds r c i).countP
      Cmd.isRect = 1 := by
  cases showIds <;> simp [grid_cell_cmds, Cmd.isRect]

/-- Counting over a flattened map whose blocks each count 1. -/
theorem flatten_map_count (p : Cmd → Bool) (f : ℕ → List Cmd) :
    ∀ l : List ℕ, (∀ i ∈ l, (f i).countP p = 1) →
      ((l.map f).flatten).countP p = l.length := by
  intro l
  induction l with
  | nil => intro _; simp
  | cons a t ih =>
      intro h
      simp only [List.map_cons, List.flatten_cons, List.countP_append,
        List.length_cons]
      rw [h a (List.mem_cons_self a t), ih (fun i hi => h i (List.mem_cons_of_mem a hi))]
      omega

/-- Rectangle count of a full `generate_grid_commands` result, for any
per-cell predicate that holds exactly once per cell and never of the group
wrappers. -/
theorem generate_count (group : PyVal) (x0 y0 : Frac)
    (cols cellSize gap rx ry : ℤ) (showIds : Bool) (uo : Option (List PyKey))
    (n : ℤ) (ids : List PyKey) (ukvs : List (PyKey × PyVal))
    (h : grid_unit_ids group uo = .ok (n, ids, ukvs)) (hn : 0 ≤ n)
    (p : Cmd → Bool)
    (hp : ∀ (r c : ℤ) (i : ℕ),
      (grid_cell_cmds ukvs ids x0 y0 cellSize gap rx ry showIds r c i).countP p = 1)
    (hopen : p (Cmd.groupOpen "grid" "") = false)
    (hclose : p Cmd.groupClose = false) :
    Except.map (fun res => res.1.countP p)
      (generate_grid_commands group x0 y0 cols cellSize gap rx ry showIds uo)
      = .ok n.toNat := by
  by_cases h0 : n = 0
  · subst h0
    unfold generate_grid_commands
    rw [h]
    rfl
  · rw [generate_grid_spec group x0 y0 cols cellSize gap rx ry showIds uo n ids ukvs h
      (by omega)]
    simp only [Except.map, List.countP_cons, hopen, hclose, List.countP_append]
    rw [flatten_map_count p _ _ (fun i _ => hp _ _ i)]
    simp

/-- Singleton blocks flatten back to a plain map. -/
theorem flatten_map_singleton {α β : Type} (g : α → β) :
    ∀ l : List α, ((l.map (fun i => [g i])).flatten) = l.map g := by
  intro l
  induction l with
  | nil => rfl
  | cons a t ih => simp [ih]

/-- Claim C8 falls on a leaf group with no listed units and a negative
declared total: `n_cells = -1` is not `0`, so the generator still emits the
group wrappers and a negative height instead of the empty list and height 0
the claim requires for a group of zero units. -/
theorem c8_counterexample :
    grid_unit_ids c8badGroup none = .ok (-1, [], [])
    ∧ generate_grid_commands c8badGroup (Frac.ofInt 0) (Frac.ofInt 0) 16 14 4 2 2 false none
        = .ok ([Cmd.groupOpen "grid" "", Cmd.groupClose], -22)
    ∧ ([Cmd.groupOpen "grid" "", Cmd.groupClose] : List Cmd).length ≠ 0
    ∧ (-22 : ℤ) ≠ 0 :=
  ⟨rfl, rfl, by decide, by decide⟩

/-- Claim C8 as amended: for every leaf group whose resolved cell count `n`
is non-negative (all-comparable unit identifiers; non-negative declared
total when no units are listed), the generator emits exactly `n` rectangle
commands; `n = 0` returns the empty command list and height 0; and for
`n ≥ 1` the clamped column count lies in `[1, n]`. -/
theorem c8_amended (group : PyVal) (x0 y0 : Frac) (cols cellSize gap rx ry : ℤ)
    (showIds : Bool) (uo : Option (List PyKey)) (n : ℤ) (ids : List PyKey)
    (ukvs : List (PyKey × PyVal))
    (h : grid_unit_ids group uo = .ok (n, ids, ukvs)) (hn : 0 ≤ n) :
    Except.map (fun res => res.1.countP Cmd.isRect)
      (generate_grid_commands group x0 y0 cols cellSize gap rx ry showIds uo)
      = .ok n.toNat
    ∧ (n = 0 → generate_grid_commands group x0 y0 cols cellSize gap rx ry showIds uo
        = .ok ([], 0))
    ∧ (1 ≤ n → 1 ≤ max 1 (min cols n) ∧ max 1 (min cols n) ≤ n) := by
  refine ⟨?_, ?_, ?_⟩
  · exact generate_count group x0 y0 cols cellSize gap rx ry showIds uo n ids ukvs h hn
      Cmd.isRect (grid_cell_rect_count ukvs ids x0 y0 cellSize gap rx ry showIds) rfl rfl
  · intro h0
    subst h0
    unfold generate_grid_commands
    rw [h]
    rfl
  · intro h1
    exact ⟨le_max_left _ _, by omega⟩

/-- Witness for `c8_amended` at a two-unit leaf group. -/
theorem c8_amended_witness :
    Except.map (fun res => res.1.countP Cmd.isRect)
      (generate_grid_commands c8group (Frac.ofInt 0) (Frac.ofInt 0) 16 14 4 2 2 false none)
      = .ok 2
    ∧ ((2 : ℤ) = 0 → generate_grid_commands c8group (Frac.ofInt 0) (Frac.ofInt 0)
        16 14 4 2 2 false none = .ok ([], 0))
    ∧ ((1 : ℤ) ≤ 2 → (1 : ℤ) ≤ max 1 (min (16 : ℤ) 2) ∧ max 1 (min (16 : ℤ) 2) ≤ 2) :=
  c8_amended c8group (Frac.ofInt 0) (Frac.ofInt 0) 16 14 4 2 2 false none 2
    [kStr "a", kStr "b"] [(kStr "a", pInt 0), (kStr "b", pInt 2)] rfl (by decide)

/-- Claim C10: for a leaf group with at least one cell and per-cell labels
disabled, the command list is exactly one `GROUP_OPEN`, the `n` cell
rectangles in row-major order of the resolved (sorted) unit identifiers,
and one `GROUP_CLOSE` — so the wrappers are balanced and the list has
length `n + 2`. -/
theorem c10_grid_shape (group : PyVal) (x0 y0 : Frac) (cols cellSize gap rx ry : ℤ)
    (n : ℤ) (ids : List PyKey) (ukvs : List (PyKey × PyVal))
    (h : grid_unit_ids group none = .ok (n, ids, ukvs)) (hn : 1 ≤ n) :
    generate_grid_commands group x0 y0 cols cellSize gap rx ry false none =
      .ok (Cmd.groupOpen "grid" "" ::
        (((List.range n.toNat).map (fun (i : ℕ) =>
            Cmd.rect (x0.add (Frac.ofInt ((i : ℤ) % max 1 (min cols n) * (cellSize + gap))))
              (y0.add (Frac.ofInt ((i : ℤ) / max 1 (min cols n) * (cellSize + gap))))
              (Frac.ofInt cellSize) (Frac.ofInt cellSize) (Frac.ofInt rx) (Frac.ofInt ry)
              ("square state-" ++ toString (grid_state_val ukvs (ids.getD i (kStr ""))))))
          ++ [Cmd.groupClose]),
        (n + max 1 (min cols n) - 1) / max 1 (min cols n) * cellSize
          + ((n + max 1 (min cols n) - 1) / max 1 (min cols n) - 1) * gap) := by
  rw [generate_grid_spec group x0 y0 cols cellSize gap rx ry false none n ids ukvs h hn]
  have hcell : (fun (i : ℕ) =>
      grid_cell_cmds ukvs ids x0 y0 cellSize gap rx ry false
        ((i : ℤ) / max 1 (min cols n)) ((i : ℤ) % max 1 (min cols n)) i)
      = (fun (i : ℕ) =>
        [Cmd.rect (x0.add (Frac.ofInt ((i : ℤ) % max 1 (min cols n) * (cellSize + gap))))
          (y0.add (Frac.ofInt ((i : ℤ) / max 1 (min cols n) * (cellSize + gap))))
          (Frac.ofInt cellSize) (Frac.ofInt cellSize) (Frac.ofInt rx) (Frac.ofInt ry)
          ("square state-" ++ toString (grid_state_val ukvs (ids.getD i (kStr ""))))]) :=
    funext (fun i => rfl)
  rw [hcell, flatten_map_singleton]

/-- Witness for `c10_grid_shape`: three units listed out of order, two
columns — cells appear in sorted-identifier order `a, b, c`, row-major. -/
theorem c10_grid_shape_witness :
    generate_grid_commands c10group (Frac.ofInt 0) (Frac.ofInt 0) 2 14 4 2 2 false none =
      .ok ([Cmd.groupOpen "grid" "",
            Cmd.rect ⟨0, 1⟩ ⟨0, 1⟩ ⟨14, 1⟩ ⟨14, 1⟩ ⟨2, 1⟩ ⟨2, 1⟩ "square state-0",
            Cmd.rect ⟨18, 1⟩ ⟨0, 1⟩ ⟨14, 1⟩ ⟨14, 1⟩ ⟨2, 1⟩ ⟨2, 1⟩ "square state-1",
            Cmd.rect ⟨0, 1⟩ ⟨18, 1⟩ ⟨14, 1⟩ ⟨14, 1⟩ ⟨2, 1⟩ ⟨2, 1⟩ "square state-2",
            Cmd.groupClose], 32) :=
  c10_grid_shape c10group (Frac.ofInt 0) (Frac.ofInt 0) 2 14 4 2 2 3
    [kStr "a", kStr "b", kStr "c"]
    [(kStr "b", pInt 1), (kStr "a", pInt 0), (kStr "c", pInt 2)] rfl (by decide)

/-- Claim C2 falls: a leaf group listing one unit with declared `total: 3`
draws one rectangle, not three — the declared total is consulted only when
no units are listed at all. -/
theorem c2_counterexample :
    generate_grid_commands c2group (Frac.ofInt 0) (Frac.ofInt 0) 16 14 4 2 2 false none
      = .ok ([Cmd.groupOpen "grid" "",
              Cmd.rect ⟨0, 1⟩ ⟨0, 1⟩ ⟨14, 1⟩ ⟨14, 1⟩ ⟨2, 1⟩ ⟨2, 1⟩ "square state-0",
              Cmd.groupClose], 14)
    ∧ Except.map (fun res => res.1.countP Cmd.isRect)
        (generate_grid_commands c2group (Frac.ofInt 0) (Frac.ofInt 0) 16 14 4 2 2 false none)
        = .ok 1
    ∧ (1 : ℕ) ≠ 3 :=
  ⟨rfl, rfl, by decide⟩

/-- Insertion grows the length by one. -/
theorem insertLe_length {α : Type} (le : α → α → Bool) (a : α) :
    ∀ l : List α, (insertLe le a l).length = l.length + 1 := by
  intro l
  induction l with
  | nil => rfl
  | cons b t ih =>
      show (if le a b then a :: b :: t else b :: insertLe le a t).length = _
      by_cases h : le a b
      · rw [if_pos h]; rfl
      · rw [if_neg h]
        simp [ih]

/-- Sorting preserves the length. -/
theorem sortLe_length {α : Type} (le : α → α → Bool) :
    ∀ l : List α, (sortLe le l).length = l.length := by
  intro l
  induction l with
  | nil => rfl
  | cons a t ih =>
      show (insertLe le a (sortLe le t)).length = t.length + 1
      rw [insertLe_length, ih]

/-- A successful key sort preserves the key count. -/
theorem pySortedKeys_length (ks : List PyKey) (ids : List PyKey)
    (h : pySortedKeys ks = some ids) : ids.length = ks.length := by
  unfold pySortedKeys at h
  by_cases h1 : ks.all (fun k => match k with | kStr _ => true | _ => false)
  · rw [if_pos h1] at h
    obtain rfl : sortLe _ ks = ids := by injection h
    exact sortLe_length _ ks
  · rw [if_neg h1] at h
    by_cases h2 : ks.all (fun k => match k with | kInt _ => true | _ => false)
    · rw [if_pos h2] at h
      obtain rfl : sortLe _ ks = ids := by injection h
      exact sortLe_length _ ks
    · rw [if_neg h2] at h
      exact absurd h (by simp)

/-- Claim C2 as amended: placeholder synthesis happens only when the unit
mapping is empty — then a declared total `t ≥ 1` yields `t` deterministic
`<group_id>-NNN` identifiers and `t` baseline (`state-0`) rectangles; when
units are listed, the rectangle count equals the number of listed units,
whatever the declared total. -/
theorem c2_amended :
    (∀ (g : List (PyKey × PyVal)) (x0 y0 : Frac) (cols cellSize gap rx ry t : ℤ),
      pyTruthy ((dictGet g (kStr "units")).getD (pDict [])) = false →
      dictGet g (kStr "total") = some (pInt t) → 1 ≤ t →
      grid_unit_ids (pDict g) none
        = .ok (t, (List.range t.toNat).map
            (fun i => kStr (placeholderId
              (pyStr ((dictGet g (kStr "id")).getD (pStr "group"))) i)), [])
      ∧ Except.map (fun res => res.1.countP Cmd.isRect)
          (generate_grid_commands (pDict g) x0 y0 cols cellSize gap rx ry false none)
          = .ok t.toNat
      ∧ Except.map (fun res => res.1.countP (fun c =>
            match c with
            | Cmd.rect _ _ _ _ _ _ cls => cls = "square state-0"
            | _ => false))
          (generate_grid_commands (pDict g) x0 y0 cols cellSize gap rx ry false none)
          = .ok t.toNat)
    ∧ (∀ (g : List (PyKey × PyVal)) (x0 y0 : Frac) (cols cellSize gap rx ry : ℤ)
        (showIds : Bool) (ukvs : List (PyKey × PyVal)) (ids : List PyKey),
      dictGet g (kStr "units") = some (pDict ukvs) → ukvs ≠ [] →
      pySortedKeys (ukvs.map Prod.fst) = some ids →
      grid_unit_ids (pDict g) none = .ok ((ukvs.length : ℤ), ids, ukvs)
      ∧ Except.map (fun res => res.1.countP Cmd.isRect)
          (generate_grid_commands (pDict g) x0 y0 cols cellSize gap rx ry showIds none)
          = .ok ukvs.length) := by
  constructor
  · intro g x0 y0 cols cellSize gap rx ry t hfalsy htotal ht
    have hids : grid_unit_ids (pDict g) none
        = .ok (t, (List.range t.toNat).map
            (fun i => kStr (placeholderId
              (pyStr ((dictGet g (kStr "id")).getD (pStr "group"))) i)), []) := by
      simp only [grid_unit_ids]
      rw [hfalsy]
      simp only [Bool.false_eq_true, if_false]
      have hpf : pyTruthy (pDict []) = false := rfl
      rw [hpf]
      simp only [Bool.false_eq_true, if_false]
      rw [htotal]
      simp only [Option.getD_some]
      have htv : pyTruthy (pInt t) = true := by
        simp only [pyTruthy, decide_eq_true_eq]
        omega
      rw [htv]
      simp only [if_true]
      rfl
    refine ⟨hids, ?_, ?_⟩
    · exact generate_count (pDict g) x0 y0 cols cellSize gap rx ry false none t _ [] hids
        (by omega) Cmd.isRect (grid_cell_rect_count [] _ x0 y0 cellSize gap rx ry false)
        rfl rfl
    · refine generate_count (pDict g) x0 y0 cols cellSize gap rx ry false none t _ [] hids
        (by omega) _ ?_ rfl rfl
      intro r c i
      rfl
  · intro g x0 y0 cols cellSize gap rx ry showIds ukvs ids hu hne hsort
    have htr : pyTruthy (pDict ukvs) = true := by
      cases ukvs with
      | nil => exact absurd rfl hne
      | cons a l => simp [pyTruthy]
    have hlen : ids.length = ukvs.length := by
      rw [pySortedKeys_length _ _ hsort, List.length_map]
    have hids : grid_unit_ids (pDict g) none = .ok ((ukvs.length : ℤ), ids, ukvs) := by
      simp only [grid_unit_ids]
      rw [hu]
      simp only [Option.getD_some]
      rw [htr]
      simp only [if_true]
      rw [htr]
      simp only [if_true, hsort]
      rw [hlen]
      simp
    refine ⟨hids, ?_⟩
    have := generate_count (pDict g) x0 y0 cols cellSize gap rx ry showIds none
      (ukvs.length : ℤ) ids ukvs hids (by omega) Cmd.isRect
      (grid_cell_rect_count ukvs ids x0 y0 cellSize gap rx ry showIds) rfl rfl
    simpa using this

/-- Witness for `c2_amended`: a unit-less group with `total: 2` synthesizes
`g-001`, `g-002`; `c2group` (one listed unit, total 3) draws one cell. -/
theorem c2_amended_witness :
    grid_unit_ids (pDict [(kStr "id", pStr "g"), (kStr "total", pInt 2)]) none
      = .ok (2, [kStr "g-001", kStr "g-002"], [])
    ∧ Except.map (fun res => res.1.countP Cmd.isRect)
        (generate_grid_commands (pDict [(kStr "id", pStr "g"), (kStr "total", pInt 2)])
          (Frac.ofInt 0) (Frac.ofInt 0) 16 14 4 2 2 false none) = .ok 2
    ∧ Except.map (fun res => res.1.countP Cmd.isRect)
        (generate_grid_commands (pDict [(kStr "units", pDict [(kStr "a", pInt 0)]),
          (kStr "total", pInt 3)])
          (Frac.ofInt 0) (Frac.ofInt 0) 16 14 4 2 2 false none) = .ok 1 :=
  have h1 := c2_amended.1 [(kStr "id", pStr "g"), (kStr "total", pInt 2)]
    (Frac.ofInt 0) (Frac.ofInt 0) 16 14 4 2 2 2 rfl rfl (by decide)
  have h2 := c2_amended.2 [(kStr "units", pDict [(kStr "a", pInt 0)]), (kStr "total", pInt 3)]
    (Frac.ofInt 0) (Frac.ofInt 0) 16 14 4 2 2 false [(kStr "a", pInt 0)] [kStr "a"]
    rfl (by simp) rfl
  ⟨h1.1, h1.2.1, h2.2⟩

/-- Assigning a fresh key appends the pair at the end. -/
theorem assocSet_not_mem {β : Type} :
    ∀ (l : List (ℤ × β)) (k : ℤ) (v : β), (∀ q ∈ l, k ≠ q.1) →
      assocSet l k v = l ++ [(k, v)] := by
  intro l k v
  induction l with
  | nil => intro _; rfl
  | cons a t ih =>
      intro h
      obtain ⟨k2, v2⟩ := a
      show (if k = k2 then (k, v) :: t else (k2, v2) :: assocSet t k v) = _
      rw [if_neg (h (k2, v2) (List.mem_cons_self _ _))]
      rw [ih (fun q hq => h q (List.mem_cons_of_mem _ hq))]
      rfl

/-- Dict assignment preserves distinctness of the keys. -/
theorem assocSet_nodup {β : Type} :
    ∀ (l : List (ℤ × β)) (k : ℤ) (v : β),
      (l.map Prod.fst).Nodup → ((assocSet l k v).map Prod.fst).Nodup := by
  intro l k v
  induction l with
  | nil => intro _; simp [assocSet]
  | cons a t ih =>
      obtain ⟨k2, v2⟩ := a
      intro h
      simp only [List.map_cons, List.nodup_cons] at h
      show ((if k = k2 then (k, v) :: t else (k2, v2) :: assocSet t k v).map Prod.fst).Nodup
      by_cases hk : k = k2
      · rw [if_pos hk]
        subst hk
        simp only [List.map_cons, List.nodup_cons]
        exact h
      · rw [if_neg hk]
        simp only [List.map_cons, List.nodup_cons]
        constructor
        · intro hmem
          simp only [List.mem_map] at hmem
          obtain ⟨q, hq, hq2⟩ := hmem
          rcases mem_assocSet t k v q hq with h1 | h1
          · exact h.1 (by simp only [List.mem_map]; exact ⟨q, h1, hq2⟩)
          · rw [h1] at hq2
            exact hk hq2
        · exact ih h.2

/-- The states fold over already-canonical entries replays the dict
assignments with no recorded issue. -/
theorem states_fold_refold (sk : PyKey) :
    ∀ (sl acc : List (ℤ × String)) (errs : List String),
      (sl.map Prod.fst).Nodup → (∀ p ∈ sl, ∀ q ∈ acc, p.1 ≠ q.1) →
      (sl.map (fun p => (kInt p.1, pStr p.2))).foldl (normalize_states_step sk)
        (acc, errs) = (acc ++ sl, errs) := by
  intro sl
  induction sl with
  | nil => intro acc errs _ _; simp
  | cons p t ih =>
      intro acc errs hnd hdis
      simp only [List.map_cons, List.foldl_cons]
      have hstep : normalize_states_step sk (acc, errs) (kInt p.1, pStr p.2)
          = (assocSet acc p.1 p.2, errs) := rfl
      rw [hstep]
      rw [assocSet_not_mem acc p.1 p.2
        (fun q hq => hdis p (List.mem_cons_self _ _) q hq)]
      simp only [List.map_cons, List.nodup_cons] at hnd
      rw [ih (acc ++ [p]) errs hnd.2]
      · simp
      · intro q hq r hr
        rcases List.mem_append.mp hr with h1 | h1
        · exact hdis q (List.mem_cons_of_mem _ hq) r h1
        · rw [List.mem_singleton.mp h1]
          intro hc
          exact hnd.1 (by simp only [List.mem_map]; exact ⟨q, hq, hc⟩)

/-- Normalizing an already-canonical states dict is the identity with no
recorded issue. -/
theorem normalize_states_canon (sk : PyKey) (sl : List (ℤ × String))
    (hnd : (sl.map Prod.fst).Nodup) :
    normalize_states sk (pDict (sl.map (fun p => (kInt p.1, pStr p.2)))) = (sl, []) := by
  show (sl.map (fun p => (kInt p.1, pStr p.2))).foldl (normalize_states_step sk) ([], [])
    = (sl, [])
  rw [states_fold_refold sk sl [] [] hnd (by simp)]
  rfl

/-- The keys of the normalized states are distinct. -/
theorem normalize_states_nodup (sk : PyKey) (states : PyVal) :
    (((normalize_states sk states).1.map Prod.fst)).Nodup := by
  have hstep : ∀ (kvs : List (PyKey × PyVal)) (acc : List (ℤ × String)) (errs : List String),
      (acc.map Prod.fst).Nodup →
      (((kvs.foldl (normalize_states_step sk) (acc, errs)).1.map Prod.fst)).Nodup := by
    intro kvs
    induction kvs with
    | nil => intro acc errs h; exact h
    | cons kv t ih =>
        intro acc errs h
        simp only [List.foldl_cons]
        unfold normalize_states_step
        cases hki : (match kv.1 with
          | kInt n => some n
          | kStr s => parseIntString s) with
        | none => exact ih acc _ h
        | some ki =>
            cases kv.2 with
            | pStr s => exact ih _ _ (assocSet_nodup acc ki s h)
            | pNone => exact ih _ _ (assocSet_nodup acc ki _ h)
            | pBool b => exact ih _ _ (assocSet_nodup acc ki _ h)
            | pInt n => exact ih _ _ (assocSet_nodup acc ki _ h)
            | pList l => exact ih _ _ (assocSet_nodup acc ki _ h)
            | pDict d => exact ih _ _ (assocSet_nodup acc ki _ h)
  unfold normalize_states
  cases states with
  | pDict kvs => exact hstep kvs [] [] (by simp)
  | pNone => simp
  | pBool b => simp
  | pInt n => simp
  | pStr s => simp
  | pList l => simp

/-- Re-normalizing an already-canonical subgroup is the identity with no
recorded issue. -/
theorem normalize_subgroup_canon (sk : PyKey) (gid : PyVal) (si : ℕ) (cs : CSub)
    (h : cs.sid ≠ pNone) :
    normalize_subgroup sk gid si cs.toPy = (some cs.toPy, [], []) := by
  obtain ⟨sid, slabel, t, u⟩ := cs
  cases sid with
  | pNone => exact absurd rfl h
  | pBool b => rfl
  | pInt n => rfl
  | pStr s => rfl
  | pList l => rfl
  | pDict d => rfl

/-- Every subgroup the Normalizer keeps is a canonical subgroup whose
identifier is not `None`. -/
theorem normalize_subgroup_shape (sk : PyKey) (gid : PyVal) (si : ℕ) (sg : PyVal)
    (out : PyVal) (h : (normalize_subgroup sk gid si sg).1 = some out) :
    ∃ cs : CSub, out = cs.toPy ∧ cs.sid ≠ pNone := by
  cases sg with
  | pDict skvs =>
      simp only [normalize_subgroup] at h
      cases hsid : (dictGet skvs (kStr "id")).getD pNone
      case pNone => rw [hsid] at h; simp at h
      all_goals
        rw [hsid] at h
        simp only [Option.some.injEq] at h
        exact ⟨⟨_, _, _, _⟩, h.symm, by simp⟩
  | pNone => simp [normalize_subgroup] at h
  | pBool b => simp [normalize_subgroup] at h
  | pInt n => simp [normalize_subgroup] at h
  | pStr s => simp [normalize_subgroup] at h
  | pList l => simp [normalize_subgroup] at h

/-- Folding the subgroup step over canonical subgroups replays them
verbatim and records nothing. -/
theorem sub_fold_canon (sk : PyKey) (gid : PyVal) :
    ∀ (subs : List CSub), (∀ s ∈ subs, s.sid ≠ pNone) →
    ∀ (acc : List PyVal × List String × List String × ℕ),
      (subs.map CSub.toPy).foldl (sub_fold_step sk gid) acc
        = (acc.1 ++ subs.map CSub.toPy, acc.2.1, acc.2.2.1, acc.2.2.2 + subs.length) := by
  intro subs
  induction subs with
  | nil =>
      intro _ acc
      obtain ⟨a1, a2, a3, a4⟩ := acc
      simp
  | cons s t ih =>
      intro h acc
      simp only [List.map_cons, List.foldl_cons]
      have hstep : sub_fold_step sk gid acc (CSub.toPy s)
          = (acc.1 ++ [CSub.toPy s], acc.2.1, acc.2.2.1, acc.2.2.2 + 1) := by
        simp only [sub_fold_step]
        rw [normalize_subgroup_canon sk gid acc.2.2.2 s (h s (List.mem_cons_self _ _))]
        simp
      rw [hstep, ih (fun q hq => h q (List.mem_cons_of_mem _ hq))]
      simp only [Prod.mk.injEq]
      refine ⟨by simp, trivial, trivial, by simp only [List.length_cons]; omega⟩

/-- Whatever list the subgroup fold starts from, its outputs extend the
accumulator with canonical subgroups only. -/
theorem sub_fold_shape (sk : PyKey) (gid : PyVal) :
    ∀ (l : List PyVal) (acc : List PyVal × List String × List String × ℕ),
      ∃ sl : List CSub,
        (l.foldl (sub_fold_step sk gid) acc).1 = acc.1 ++ sl.map CSub.toPy
          ∧ ∀ s ∈ sl, s.sid ≠ pNone := by
  intro l
  induction l with
  | nil => intro acc; exact ⟨[], by simp, by simp⟩
  | cons x t ih =>
      intro acc
      simp only [List.foldl_cons]
      cases hr : (normalize_subgroup sk gid acc.2.2.2 x).1 with
      | none =>
          obtain ⟨sl, h1, h2⟩ := ih (sub_fold_step sk gid acc x)
          refine ⟨sl, ?_, h2⟩
          rw [h1]
          have hacc : (sub_fold_step sk gid acc x).1 = acc.1 := by
            simp only [sub_fold_step]
            rw [hr]
            simp
          rw [hacc]
      | some out =>
          obtain ⟨cs, hcs, hne⟩ := normalize_subgroup_shape sk gid acc.2.2.2 x out hr
          obtain ⟨sl, h1, h2⟩ := ih (sub_fold_step sk gid acc x)
          refine ⟨cs :: sl, ?_, ?_⟩
          · rw [h1]
            have hacc : (sub_fold_step sk gid acc x).1 = acc.1 ++ [cs.toPy] := by
              simp only [sub_fold_step]
              rw [hr, hcs]
              simp
            rw [hacc]
            simp
          · intro q hq
            rcases List.mem_cons.mp hq with h3 | h3
            · rw [h3]; exact hne
            · exact h2 q h3

/-- `normalize_group` on a dictionary, with its subgroup fold named. -/
theorem normalize_group_red (sk : PyKey) (gi : ℕ) (gkvs : List (PyKey × PyVal)) :
    normalize_group sk gi (pDict gkvs)
      = (match (dictGet gkvs (kStr "id")).getD pNone with
         | pNone =>
             (none,
              [secMsg sk (": group at index " ++ toString gi ++ " missing 'id'; skipping.")],
              [])
         | gid =>
             match (dictGet gkvs (kStr "subgroups")).getD pNone with
             | pNone =>
                 let te : ℤ × List String × List String :=
                   match (dictGet gkvs (kStr "total")).getD pNone with
                   | pNone => (0, [], [sgMsg sk gid ": missing 'total'. Setting to 0."])
                   | v =>
                       match pyInt v with
                       | some n => (n, [], [])
                       | none => (0, [sgMsg sk gid ": 'total' not an integer; setting to 0."], [])
                 let ue : List (PyKey × PyVal) × List String :=
                   match (dictGet gkvs (kStr "units")).getD pNone with
                   | pNone => ([], [])
                   | pDict u => (u, [])
                   | _ => ([], [sgMsg sk gid ": 'units' must be a mapping; using empty dict."])
                 (some (pDict [(kStr "id", gid),
                               (kStr "label", (dictGet gkvs (kStr "label")).getD (pStr "")),
                               (kStr "total", pInt te.1), (kStr "units", pDict ue.1)]),
                  te.2.1 ++ ue.2, te.2.2)
             | subsV =>
                 let se : List PyVal × List String :=
                   match subsV with
                   | pList l => (l, [])
                   | _ => ([], [sgMsg sk gid ": 'subgroups' must be a list."])
                 let res := se.1.foldl (sub_fold_step sk gid) ([], se.2, [], 0)
                 (some (pDict [(kStr "id", gid),
                               (kStr "label", (dictGet gkvs (kStr "label")).getD (pStr "")),
                               (kStr "subgroups", pList res.1)]),
                  res.2.1, res.2.2.1)) := rfl

/-- A container-group output built over any subgroup fold starting from an
empty output accumulator is a canonical group. -/
theorem container_out_canon (sk : PyKey) (gid glabel out : PyVal) (l : List PyVal)
    (acc : List PyVal × List String × List String × ℕ) (hacc : acc.1 = [])
    (hne : gid ≠ pNone)
    (h : pDict [(kStr "id", gid), (kStr "label", glabel),
          (kStr "subgroups", pList (l.foldl (sub_fold_step sk gid) acc).1)] = out) :
    ∃ cg : CGroup, out = cg.toPy ∧ cg.idOk := by
  obtain ⟨sl, h1, h2⟩ := sub_fold_shape sk gid l acc
  refine ⟨CGroup.container gid glabel sl, ?_, hne, h2⟩
  rw [← h, h1, hacc]
  rfl

/-- Every group the Normalizer keeps is a canonical group with sane
identifiers. -/
theorem normalize_group_shape (sk : PyKey) (gi : ℕ) (g : PyVal) (out : PyVal)
    (h : (normalize_group sk gi g).1 = some out) :
    ∃ cg : CGroup, out = cg.toPy ∧ cg.idOk := by
  cases g with
  | pDict gkvs =>
      rw [normalize_group_red] at h
      cases hgid : (dictGet gkvs (kStr "id")).getD pNone
      case pNone => rw [hgid] at h; simp at h
      all_goals
        rw [hgid] at h
        cases hgs : (dictGet gkvs (kStr "subgroups")).getD pNone
        case pNone =>
          rw [hgs] at h
          simp only [Option.some.injEq] at h
          exact ⟨CGroup.leaf _ _ _ _, h.symm, by simp [CGroup.idOk]⟩
        all_goals
          rw [hgs] at h
          simp only [Option.some.injEq] at h
          exact container_out_canon sk _ _ _ _ _ rfl (by simp) h
  | pNone => simp [normalize_group] at h
  | pBool b => simp [normalize_group] at h
  | pInt n => simp [normalize_group] at h
  | pStr s => simp [normalize_group] at h
  | pList l => simp [normalize_group] at h

/-- Re-normalizing an already-canonical group is the identity with no
recorded issue. -/
theorem normalize_group_canon (sk : PyKey) (gi : ℕ) (cg : CGroup) (h : cg.idOk) :
    normalize_group sk gi cg.toPy = (some cg.toPy, [], []) := by
  cases cg with
  | leaf gid glabel t units =>
      cases gid with
      | pNone => exact absurd rfl h
      | pBool b => rfl
      | pInt n => rfl
      | pStr s => rfl
      | pList l => rfl
      | pDict d => rfl
  | container gid glabel subs =>
      obtain ⟨hne, hsubs⟩ := h
      have hred : normalize_group sk gi (CGroup.container gid glabel subs).toPy
          = (some (pDict [(kStr "id", gid), (kStr "label", glabel),
              (kStr "subgroups",
               pList (((subs.map CSub.toPy).foldl (sub_fold_step sk gid) ([], [], [], 0)).1))]),
             ((subs.map CSub.toPy).foldl (sub_fold_step sk gid) ([], [], [], 0)).2.1,
             ((subs.map CSub.toPy).foldl (sub_fold_step sk gid) ([], [], [], 0)).2.2.1) := by
        cases gid with
        | pNone => exact absurd rfl hne
        | pBool b => rfl
        | pInt n => rfl
        | pStr s => rfl
        | pList l => rfl
        | pDict d => rfl
      rw [hred, sub_fold_canon sk gid subs hsubs ([], [], [], 0)]
      rfl

/-- `normalize_groups`, with its group fold named. -/
theorem normalize_groups_red (sk : PyKey) (gv : PyVal) :
    normalize_groups sk gv
      = (let base : List PyVal × List String × List String :=
           match gv with
           | pList l => (l, [], if l.isEmpty then [secMsg sk ": 'groups' is empty."] else [])
           | _ => ([], [secMsg sk ": 'groups' must be a list."], [secMsg sk ": 'groups' is empty."]);
         let res := base.1.foldl (group_fold_step sk) ([], base.2.1, base.2.2, 0);
         (res.1, res.2.1, res.2.2.1)) := rfl

/-- Folding the group step over canonical groups replays them verbatim and
records nothing. -/
theorem group_fold_canon (sk : PyKey) :
    ∀ (gl : List CGroup), (∀ g ∈ gl, g.idOk) →
    ∀ (acc : List PyVal × List String × List String × ℕ),
      (gl.map CGroup.toPy).foldl (group_fold_step sk) acc
        = (acc.1 ++ gl.map CGroup.toPy, acc.2.1, acc.2.2.1, acc.2.2.2 + gl.length) := by
  intro gl
  induction gl with
  | nil =>
      intro _ acc
      obtain ⟨a1, a2, a3, a4⟩ := acc
      simp
  | cons g t ih =>
      intro h acc
      simp only [List.map_cons, List.foldl_cons]
      have hstep : group_fold_step sk acc (CGroup.toPy g)
          = (acc.1 ++ [CGroup.toPy g], acc.2.1, acc.2.2.1, acc.2.2.2 + 1) := by
        simp only [group_fold_step]
        rw [normalize_group_canon sk acc.2.2.2 g (h g (List.mem_cons_self _ _))]
        simp
      rw [hstep, ih (fun q hq => h q (List.mem_cons_of_mem _ hq))]
      simp only [Prod.mk.injEq]
      refine ⟨by simp, trivial, trivial, by simp only [List.length_cons]; omega⟩

/-- Whatever list the group fold starts from, its outputs extend the
accumulator with canonical groups only. -/
theorem group_fold_shape (sk : PyKey) :
    ∀ (l : List PyVal) (acc : List PyVal × List String × List String × ℕ),
      ∃ gl : List CGroup,
        (l.foldl (group_fold_step sk) acc).1 = acc.1 ++ gl.map CGroup.toPy
          ∧ ∀ g ∈ gl, g.idOk := by
  intro l
  induction l with
  | nil => intro acc; exact ⟨[], by simp, by simp⟩
  | cons x t ih =>
      intro acc
      simp only [List.foldl_cons]
      cases hr : (normalize_group sk acc.2.2.2 x).1 with
      | none =>
          obtain ⟨gl, h1, h2⟩ := ih (group_fold_step sk acc x)
          refine ⟨gl, ?_, h2⟩
          rw [h1]
          have hacc : (group_fold_step sk acc x).1 = acc.1 := by
            simp only [group_fold_step]
            rw [hr]
            simp
          rw [hacc]
      | some out =>
          obtain ⟨cg, hcg, hok⟩ := normalize_group_shape sk acc.2.2.2 x out hr
          obtain ⟨gl, h1, h2⟩ := ih (group_fold_step sk acc x)
          refine ⟨cg :: gl, ?_, ?_⟩
          · rw [h1]
            have hacc : (group_fold_step sk acc x).1 = acc.1 ++ [cg.toPy] := by
              simp only [group_fold_step]
              rw [hr, hcg]
              simp
            rw [hacc]
            simp
          · intro q hq
            rcases List.mem_cons.mp hq with h3 | h3
            · rw [h3]; exact hok
            · exact h2 q h3

/-- Re-normalizing an already-canonical groups list replays it verbatim,
records no error, and warns exactly when the list is empty. -/
theorem normalize_groups_canon (sk : PyKey) (gl : List CGroup) (h : ∀ g ∈ gl, g.idOk) :
    normalize_groups sk (pList (gl.map CGroup.toPy))
      = (gl.map CGroup.toPy, [],
         if (gl.map CGroup.toPy).isEmpty then [secMsg sk ": 'groups' is empty."] else []) := by
  show (((gl.map CGroup.toPy).foldl (group_fold_step sk)
          ([], [], (if (gl.map CGroup.toPy).isEmpty
                    then [secMsg sk ": 'groups' is empty."] else []), 0)).1,
        ((gl.map CGroup.toPy).foldl (group_fold_step sk)
          ([], [], (if (gl.map CGroup.toPy).isEmpty
                    then [secMsg sk ": 'groups' is empty."] else []), 0)).2.1,
        ((gl.map CGroup.toPy).foldl (group_fold_step sk)
          ([], [], (if (gl.map CGroup.toPy).isEmpty
                    then [secMsg sk ": 'groups' is empty."] else []), 0)).2.2.1)
      = (gl.map CGroup.toPy, [],
         if (gl.map CGroup.toPy).isEmpty then [secMsg sk ": 'groups' is empty."] else [])
  rw [group_fold_canon sk gl h]
  rfl

/-- Whatever the `groups` value, the kept normalized groups form a list of
canonical groups. -/
theorem normalize_groups_shape (sk : PyKey) (gv : PyVal) :
    ∃ gl : List CGroup,
      (normalize_groups sk gv).1 = gl.map CGroup.toPy ∧ ∀ g ∈ gl, g.idOk := by
  cases gv with
  | pList l =>
      obtain ⟨gl, h1, h2⟩ := group_fold_shape sk l
        ([], [], if l.isEmpty then [secMsg sk ": 'groups' is empty."] else [], 0)
      exact ⟨gl, h1.trans (List.nil_append _), h2⟩
  | pNone => exact ⟨[], rfl, by simp⟩
  | pBool b => exact ⟨[], rfl, by simp⟩
  | pInt n => exact ⟨[], rfl, by simp⟩
  | pStr s => exact ⟨[], rfl, by simp⟩
  | pDict d => exact ⟨[], rfl, by simp⟩

/-- Every section the Normalizer emits is a canonical section keyed by its
dictionary key. -/
theorem interpret_one_shape (sk : PyKey) (sec out : PyVal) (es ws : List String)
    (h : interpret_one_section sk sec = (some out, es, ws)) :
    ∃ c : CSection, c.WF ∧ c.skey = sk ∧ out = c.toPy := by
  cases sec with
  | pDict skvs =>
      simp only [interpret_one_section] at h
      cases hg : (dictGet skvs (kStr "groups")).getD pNone
      case pNone =>
        rw [hg] at h
        cases hu : (dictGet skvs (kStr "units")).getD pNone
        case pNone =>
          rw [hu] at h
          simp only [Prod.mk.injEq, Option.some.injEq] at h
          exact ⟨⟨sk, _, _, _, _, _, [], none⟩,
                 ⟨normalize_states_nodup sk _, by simp⟩, rfl, h.1.symm⟩
        case pDict u =>
          rw [hu] at h
          simp only [Prod.mk.injEq, Option.some.injEq] at h
          exact ⟨⟨sk, _, _, _, _, _, [], some u⟩,
                 ⟨normalize_states_nodup sk _, by simp⟩, rfl, h.1.symm⟩
        all_goals
          rw [hu] at h
          simp only [Prod.mk.injEq, Option.some.injEq] at h
          exact ⟨⟨sk, _, _, _, _, _, [], some []⟩,
                 ⟨normalize_states_nodup sk _, by simp⟩, rfl, h.1.symm⟩
      case pBool b =>
        rw [hg] at h
        obtain ⟨gl, hgl, hok⟩ := normalize_groups_shape sk (pBool b)
        cases hu : (dictGet skvs (kStr "units")).getD pNone
        case pNone =>
          rw [hu] at h
          simp only [Prod.mk.injEq, Option.some.injEq] at h
          rw [hgl] at h
          exact ⟨⟨sk, _, _, _, _, _, gl, none⟩,
                 ⟨normalize_states_nodup sk _, hok⟩, rfl, h.1.symm⟩
        case pDict u =>
          rw [hu] at h
          simp only [Prod.mk.injEq, Option.some.injEq] at h
          rw [hgl] at h
          exact ⟨⟨sk, _, _, _, _, _, gl, some u⟩,
                 ⟨normalize_states_nodup sk _, hok⟩, rfl, h.1.symm⟩
        all_goals
          rw [hu] at h
          simp only [Prod.mk.injEq, Option.some.injEq] at h
          rw [hgl] at h
          exact ⟨⟨sk, _, _, _, _, _, gl, some []⟩,
                 ⟨normalize_states_nodup sk _, hok⟩, rfl, h.1.symm⟩
      case pInt n =>
        rw [hg] at h
        obtain ⟨gl, hgl, hok⟩ := normalize_groups_shape sk (pInt n)
        cases hu : (dictGet skvs (kStr "units")).getD pNone
        case pNone =>
          rw [hu] at h
          simp only [Prod.mk.injEq, Option.some.injEq] at h
          rw [hgl] at h
          exact ⟨⟨sk, _, _, _, _, _, gl, none⟩,
                 ⟨normalize_states_nodup sk _, hok⟩, rfl, h.1.symm⟩
        case pDict u =>
          rw [hu] at h
          simp only [Prod.mk.injEq, Option.some.injEq] at h
          rw [hgl] at h
          exact ⟨⟨sk, _, _, _, _, _, gl, some u⟩,
                 ⟨normalize_states_nodup sk _, hok⟩, rfl, h.1.symm⟩
        all_goals
          rw [hu] at h
          simp only [Prod.mk.injEq, Option.some.injEq] at h
          rw [hgl] at h
          exact ⟨⟨sk, _, _, _, _, _, gl, some []⟩,
                 ⟨normalize_states_nodup sk _, hok⟩, rfl, h.1.symm⟩
      case pStr s =>
        rw [hg] at h
        obtain ⟨gl, hgl, hok⟩ := normalize_groups_shape sk (pStr s)
        cases hu : (dictGet skvs (kStr "units")).getD pNone
        case pNone =>
          rw [hu] at h
          simp only [Prod.mk.injEq, Option.some.injEq] at h
          rw [hgl] at h
          exact ⟨⟨sk, _, _, _, _, _, gl, none⟩,
                 ⟨normalize_states_nodup sk _, hok⟩, rfl, h.1.symm⟩
        case pDict u =>
          rw [hu] at h
          simp only [Prod.mk.injEq, Option.some.injEq] at h
          rw [hgl] at h
          exact ⟨⟨sk, _, _, _, _, _, gl, some u⟩,
                 ⟨normalize_states_nodup sk _, hok⟩, rfl, h.1.symm⟩
        all_goals
          rw [hu] at h
          simp only [Prod.mk.injEq, Option.some.injEq] at h
          rw [hgl] at h
          exact ⟨⟨sk, _, _, _, _, _, gl, some []⟩,
                 ⟨normalize_states_nodup sk _, hok⟩, rfl, h.1.symm⟩
      case pList l =>
        rw [hg] at h
        obtain ⟨gl, hgl, hok⟩ := normalize_groups_shape sk (pList l)
        cases hu : (dictGet skvs (kStr "units")).getD pNone
        case pNone =>
          rw [hu] at h
          simp only [Prod.mk.injEq, Option.some.injEq] at h
          rw [hgl] at h
          exact ⟨⟨sk, _, _, _, _, _, gl, none⟩,
                 ⟨normalize_states_nodup sk _, hok⟩, rfl, h.1.symm⟩
        case pDict u =>
          rw [hu] at h
          simp only [Prod.mk.injEq, Option.some.injEq] at h
          rw [hgl] at h
          exact ⟨⟨sk, _, _, _, _, _, gl, some u⟩,
                 ⟨normalize_states_nodup sk _, hok⟩, rfl, h.1.symm⟩
        all_goals
          rw [hu] at h
          simp only [Prod.mk.injEq, Option.some.injEq] at h
          rw [hgl] at h
          exact ⟨⟨sk, _, _, _, _, _, gl, some []⟩,
                 ⟨normalize_states_nodup sk _, hok⟩, rfl, h.1.symm⟩
      case pDict d =>
        rw [hg] at h
        obtain ⟨gl, hgl, hok⟩ := normalize_groups_shape sk (pDict d)
        cases hu : (dictGet skvs (kStr "units")).getD pNone
        case pNone =>
          rw [hu] at h
          simp only [Prod.mk.injEq, Option.some.injEq] at h
          rw [hgl] at h
          exact ⟨⟨sk, _, _, _, _, _, gl, none⟩,
                 ⟨normalize_states_nodup sk _, hok⟩, rfl, h.1.symm⟩
        case pDict u =>
          rw [hu] at h
          simp only [Prod.mk.injEq, Option.some.injEq] at h
          rw [hgl] at h
          exact ⟨⟨sk, _, _, _, _, _, gl, some u⟩,
                 ⟨normalize_states_nodup sk _, hok⟩, rfl, h.1.symm⟩
        all_goals
          rw [hu] at h
          simp only [Prod.mk.injEq, Option.some.injEq] at h
          rw [hgl] at h
          exact ⟨⟨sk, _, _, _, _, _, gl, some []⟩,
                 ⟨normalize_states_nodup sk _, hok⟩, rfl, h.1.symm⟩
  | pNone => simp [interpret_one_section] at h
  | pBool b => simp [interpret_one_section] at h
  | pInt n => simp [interpret_one_section] at h
  | pStr s => simp [interpret_one_section] at h
  | pList l => simp [interpret_one_section] at h

/-- Re-interpreting a canonical section reproduces it verbatim with no
error; the only warnings are the empty-`groups` and empty-top-level-`units`
notes. -/
theorem interpret_one_canon (c : CSection)
    (hnd : (c.sstates.map Prod.fst).Nodup) (hok : ∀ g ∈ c.sgroups, g.idOk) :
    interpret_one_section c.skey c.toPy
      = (some c.toPy, [],
         (match c.sgroups with
          | [] => [secMsg c.skey ": 'groups' is empty."]
          | _ => []) ++
         (match c.stopUnits with
          | some [] => [secMsg c.skey ": top-level 'units' is empty."]
          | _ => [])) := by
  obtain ⟨skey, title, un, up, states, fin, groups, tops⟩ := c
  cases tops with
  | none =>
      cases fin with
      | none =>
          have hred : interpret_one_section skey
              (CSection.toPy ⟨skey, title, un, up, states, none, groups, none⟩)
              = (some (pDict [(kStr "id", keyPy skey), (kStr "title", title),
                  (kStr "unit", pDict [(kStr "name", un), (kStr "plural", up)]),
                  (kStr "states", pDict (((normalize_states skey
                    (pDict (states.map (fun p => (kInt p.1, pStr p.2))))).1).map
                      (fun p => (kInt p.1, pStr p.2)))),
                  (kStr "final_state", pNone),
                  (kStr "groups",
                   pList (normalize_groups skey (pList (groups.map CGroup.toPy))).1)]),
                 [] ++ (normalize_states skey
                    (pDict (states.map (fun p => (kInt p.1, pStr p.2))))).2
                   ++ [] ++ (normalize_groups skey (pList (groups.map CGroup.toPy))).2.1,
                 (normalize_groups skey (pList (groups.map CGroup.toPy))).2.2 ++ []) := rfl
          refine hred.trans ?_
          rw [normalize_states_canon skey states hnd,
              normalize_groups_canon skey groups hok]
          cases groups with
          | nil => rfl
          | cons g gs => rfl
      | some n =>
          have hred : interpret_one_section skey
              (CSection.toPy ⟨skey, title, un, up, states, some n, groups, none⟩)
              = (some (pDict [(kStr "id", keyPy skey), (kStr "title", title),
                  (kStr "unit", pDict [(kStr "name", un), (kStr "plural", up)]),
                  (kStr "states", pDict (((normalize_states skey
                    (pDict (states.map (fun p => (kInt p.1, pStr p.2))))).1).map
                      (fun p => (kInt p.1, pStr p.2)))),
                  (kStr "final_state", pInt n),
                  (kStr "groups",
                   pList (normalize_groups skey (pList (groups.map CGroup.toPy))).1)]),
                 [] ++ (normalize_states skey
                    (pDict (states.map (fun p => (kInt p.1, pStr p.2))))).2
                   ++ [] ++ (normalize_groups skey (pList (groups.map CGroup.toPy))).2.1,
                 (normalize_groups skey (pList (groups.map CGroup.toPy))).2.2 ++ []) := rfl
          refine hred.trans ?_
          rw [normalize_states_canon skey states hnd,
              normalize_groups_canon skey groups hok]
          cases groups with
          | nil => rfl
          | cons g gs => rfl
  | some u =>
      cases fin with
      | none =>
          have hred : interpret_one_section skey
              (CSection.toPy ⟨skey, title, un, up, states, none, groups, some u⟩)
              = (some (pDict ([(kStr "id", keyPy skey), (kStr "title", title),
                  (kStr "unit", pDict [(kStr "name", un), (kStr "plural", up)]),
                  (kStr "states", pDict (((normalize_states skey
                    (pDict (states.map (fun p => (kInt p.1, pStr p.2))))).1).map
                      (fun p => (kInt p.1, pStr p.2)))),
                  (kStr "final_state", pNone),
                  (kStr "groups",
                   pList (normalize_groups skey (pList (groups.map CGroup.toPy))).1)]
                  ++ [(kStr "units", pDict u)])),
                 [] ++ (normalize_states skey
                    (pDict (states.map (fun p => (kInt p.1, pStr p.2))))).2
                   ++ [] ++ (normalize_groups skey (pList (groups.map CGroup.toPy))).2.1,
                 (normalize_groups skey (pList (groups.map CGroup.toPy))).2.2
                   ++ (if u.isEmpty
                       then [secMsg skey ": top-level 'units' is empty."] else [])) := rfl
          refine hred.trans ?_
          rw [normalize_states_canon skey states hnd,
              normalize_groups_canon skey groups hok]
          cases groups with
          | nil => cases u with
            | nil => rfl
            | cons q qs => rfl
          | cons g gs => cases u with
            | nil => rfl
            | cons q qs => rfl
      | some n =>
          have hred : interpret_one_section skey
              (CSection.toPy ⟨skey, title, un, up, states, some n, groups, some u⟩)
              = (some (pDict ([(kStr "id", keyPy skey), (kStr "title", title),
                  (kStr "unit", pDict [(kStr "name", un), (kStr "plural", up)]),
                  (kStr "states", pDict (((normalize_states skey
                    (pDict (states.map (fun p => (kInt p.1, pStr p.2))))).1).map
                      (fun p => (kInt p.1, pStr p.2)))),
                  (kStr "final_state", pInt n),
                  (kStr "groups",
                   pList (normalize_groups skey (pList (groups.map CGroup.toPy))).1)]
                  ++ [(kStr "units", pDict u)])),
                 [] ++ (normalize_states skey
                    (pDict (states.map (fun p => (kInt p.1, pStr p.2))))).2
                   ++ [] ++ (normalize_groups skey (pList (groups.map CGroup.toPy))).2.1,
                 (normalize_groups skey (pList (groups.map CGroup.toPy))).2.2
                   ++ (if u.isEmpty
                       then [secMsg skey ": top-level 'units' is empty."] else [])) := rfl
          refine hred.trans ?_
          rw [normalize_states_canon skey states hnd,
              normalize_groups_canon skey groups hok]
          cases groups with
          | nil => cases u with
            | nil => rfl
            | cons q qs => rfl
          | cons g gs => cases u with
            | nil => rfl
            | cons q qs => rfl

/-- Every member of the section fold's output list is either already in the
accumulator or an output of `interpret_one_section`. -/
theorem sec_fold_mem :
    ∀ (l : List (PyKey × PyVal)) (acc : List PyVal × List String × List String) (s : PyVal),
      s ∈ (l.foldl sec_fold_step acc).1 →
      s ∈ acc.1 ∨ ∃ (k : PyKey) (sec : PyVal) (es2 ws2 : List String),
        interpret_one_section k sec = (some s, es2, ws2) := by
  intro l
  induction l with
  | nil => intro acc s hs; exact Or.inl hs
  | cons kv t ih =>
      intro acc s hs
      simp only [List.foldl_cons] at hs
      rcases ih (sec_fold_step acc kv) s hs with h1 | h1
      · simp only [sec_fold_step] at h1
        rcases List.mem_append.mp h1 with h2 | h2
        · exact Or.inl h2
        · cases hr : (interpret_one_section kv.1 kv.2).1 with
          | none => rw [hr] at h2; simp at h2
          | some out =>
              rw [hr] at h2
              simp only [Option.elim] at h2
              have hsout : s = out := List.mem_singleton.mp h2
              exact Or.inr ⟨kv.1, kv.2, _, _, by rw [hsout, ← hr]⟩
      · exact Or.inr h1

/-- Every section `interpret_sections` returns is an output of the
per-section loop body. -/
theorem interpret_sections_mem (p : PyVal) (secs : List PyVal) (es ws : List String)
    (h : interpret_sections p = (some secs, es, ws)) (s : PyVal) (hs : s ∈ secs) :
    ∃ (k : PyKey) (sec : PyVal) (es2 ws2 : List String),
      interpret_one_section k sec = (some s, es2, ws2) := by
  cases p with
  | pDict pkvs =>
      simp only [interpret_sections] at h
      cases hsec : (dictGet pkvs (kStr "sections")).getD pNone
      case pNone => rw [hsec] at h; simp at h
      case pDict skvs =>
        rw [hsec] at h
        simp only [Prod.mk.injEq, Option.some.injEq] at h
        rw [← h.1] at hs
        rcases sec_fold_mem skvs ([], [], []) s hs with h1 | h1
        · simp at h1
        · exact h1
      all_goals (rw [hsec] at h; simp at h)
  | pNone => simp [interpret_sections] at h
  | pBool b => simp [interpret_sections] at h
  | pInt n => simp [interpret_sections] at h
  | pStr s2 => simp [interpret_sections] at h
  | pList l => simp [interpret_sections] at h

/-- The `id` entry of a canonical section reads back as its key. -/
theorem idKey_toPy (c : CSection) : idKey c.toPy = some c.skey := by
  obtain ⟨skey, title, un, up, states, fin, groups, tops⟩ := c
  cases skey with
  | kStr t => cases tops with
    | none => rfl
    | some u => rfl
  | kInt n => cases tops with
    | none => rfl
    | some u => rfl

/-- `rerun_warnings` on a canonical section, in closed form. -/
theorem rerun_warnings_toPy (c : CSection) :
    rerun_warnings c.skey c.toPy
      = (match c.sgroups with
         | [] => [secMsg c.skey ": 'groups' is empty."]
         | _ => []) ++
        (match c.stopUnits with
         | some [] => [secMsg c.skey ": top-level 'units' is empty."]
         | _ => []) := by
  obtain ⟨skey, title, un, up, states, fin, groups, tops⟩ := c
  cases tops with
  | none => cases groups with
    | nil => rfl
    | cons g gs => rfl
  | some u =>
      cases groups with
      | nil => cases u with
        | nil => rfl
        | cons q qs => rfl
      | cons g gs => cases u with
        | nil => rfl
        | cons q qs => rfl

/-- Re-running the Normalizer on a wrapped canonical section reproduces it
exactly: no error, and only the re-recorded emptiness warnings. -/
theorem interpret_wrap_canon (c : CSection)
    (hnd : (c.sstates.map Prod.fst).Nodup) (hok : ∀ g ∈ c.sgroups, g.idOk) :
    interpret_sections (wrapSection c.skey c.toPy)
      = (some [c.toPy], [], rerun_warnings c.skey c.toPy) := by
  have h1 : interpret_sections (wrapSection c.skey c.toPy)
      = (some ((interpret_one_section c.skey c.toPy).1.elim [] (fun x => [x])),
         (interpret_one_section c.skey c.toPy).2.1,
         (interpret_one_section c.skey c.toPy).2.2) := rfl
  rw [h1, interpret_one_canon c hnd hok, rerun_warnings_toPy c]
  rfl

/-- C4 (counterexample): the canonical section of the flat scenario is
reproduced identically by a second Normalizer run, but the run records a
new warning (`'groups' is empty`), so the claim's "zero new issues" part
fails. -/
theorem c4_counterexample :
    interpret_sections c1input = (some [c1canonical], [], [])
    ∧ interpret_sections (wrapSection (kStr "p1") c1canonical)
        = (some [c1canonical], [], ["Section 'p1': 'groups' is empty."])
    ∧ (["Section 'p1': 'groups' is empty."] : List String) ≠ ([] : List String) :=
  ⟨rfl, rfl, by decide⟩

/-- C4 (amended): re-running the Normalizer on any canonical section it
emitted reproduces that section identically with zero new errors; the only
new issues possible are warnings, re-recorded exactly when the section's
`groups` list is empty or its top-level `units` mapping is present and
empty (`rerun_warnings`). -/
theorem c4_amended (p : PyVal) (secs : List PyVal) (es ws : List String)
    (h : interpret_sections p = (some secs, es, ws)) (s : PyVal) (hs : s ∈ secs) :
    ∃ k : PyKey, idKey s = some k
      ∧ interpret_sections (wrapSection k s) = (some [s], [], rerun_warnings k s) := by
  obtain ⟨k0, sec0, es2, ws2, hone⟩ := interpret_sections_mem p secs es ws h s hs
  obtain ⟨c, ⟨hnd, hok⟩, hkey, hout⟩ := interpret_one_shape k0 sec0 s es2 ws2 hone
  subst hout
  exact ⟨c.skey, idKey_toPy c, interpret_wrap_canon c hnd hok⟩

/-- C4 (witness): the amended idempotence applied to the flat scenario's
canonical output. -/
theorem c4_amended_witness :
    ∃ k : PyKey, idKey c1canonical = some k
      ∧ interpret_sections (wrapSection k c1canonical)
          = (some [c1canonical], [], rerun_warnings k c1canonical) :=
  c4_amended c1input [c1canonical] [] [] rfl c1canonical (List.mem_singleton.mpr rfl)

end Farbige
